import Mathlib

/-!
# Verification of the `reader` incremental full-text search subsystem

Shallow embedding of `src/reader/_search.py` (class `Search` and
`make_search_entries_query`), together with the SQLite schema and triggers
created by `Search._enable`.

Modelling conventions:

* SQL tables are Lean lists of structure values; `DELETE ... WHERE p` is
  `List.filter (fun r => !p r)`, `INSERT ... SELECT` is list append,
  `UPDATE ... SET ... WHERE p` is `List.map`.
* The JSON `content` column of `entries` is `Option (List ContentItem)`;
  `none` stands for SQL `NULL` or invalid JSON (in both cases
  `json_valid(content)` is falsy in the code).
* `strip_html` calls out to BeautifulSoup, an external dependency; its exact
  text transformation is irrelevant to every property proved here, so the
  reindexing operations are parameterised by an arbitrary
  `sh : String → String` standing for it.  SQL `strip_html(NULL) = NULL`
  (the Python function returns non-strings unchanged), hence `Option.map`.
* `bm25` ranks are SQLite REALs used only for ordering; they are modelled as
  `Int`, which preserves every order-theoretic statement made about them.
* The chunked loops in `_delete_from_search` / `_delete_from_sync_state` are
  written with explicit fuel; the fuel supplied by the top-level entry points
  is shown sufficient by the theorems below.
-/

/-- One element of the JSON array stored in the `entries.content` column:
a content variant with an optional `value` and an optional MIME `type`
(`json_object_get(json_each.value, 'type')` returns `NULL` when the key is
absent). -/
structure ContentItem where
  value : Option String
  type : Option String
deriving DecidableEq

/-- A row of the primary-store `entries` table, restricted to the columns read
by `_search.py`: key `(id, feed)`, `title`, `summary`, and the JSON `content`
column. -/
structure EntryRecord where
  id : String
  feed : String
  title : Option String
  summary : Option String
  content : Option (List ContentItem)
deriving DecidableEq

/-- A row of the primary-store `feeds` table, restricted to the columns read
by `_search.py`: key `url`, `title`, `user_title`. -/
structure FeedRecord where
  url : String
  title : Option String
  user_title : Option String
deriving DecidableEq

/-- A row of `entries_search_sync_state`:
`(id, feed, to_update, to_delete)`, composite primary key `(id, feed)`. -/
structure SyncStateRecord where
  id : String
  feed : String
  to_update : Bool
  to_delete : Bool
deriving DecidableEq

/-- A row of the `entries_search` FTS5 table: indexed columns `title`,
`content`, `feed` and unindexed `_id`, `_feed`, `_content_path`,
`_is_feed_user_title` (the last stored as `feeds.user_title IS NOT NULL`). -/
structure SearchDocument where
  title : Option String
  content : Option String
  feed : Option String
  doc_id : String
  doc_feed : String
  content_path : Option String
  is_feed_user_title : Bool
deriving DecidableEq

/-- The database state seen by the search subsystem: the two primary-store
tables it reads, the two tables it owns, and `search_enabled`, which models
whether the `entries_search` / `entries_search_sync_state` tables exist
(`enable()` creates both and `disable()` drops both inside one DDL
transaction, so their existence coincides). -/
structure State where
  entries : List EntryRecord
  feeds : List FeedRecord
  entries_search : List SearchDocument
  sync_state : List SyncStateRecord
  search_enabled : Bool
deriving DecidableEq

/-- The errors raised past the public-method boundary of `Search`
(`reader.exceptions`; the module itself is not under `src/`, but only the
constructor names are taken from it — which error is raised where is decided
by the code in `_search.py`). -/
inductive SearchExc where
  | searchNotEnabled
  | invalidSearchQuery
  | searchError
deriving DecidableEq

/-! ## Document derivation: `Search._insert_into_search` -/

/-- `NOT (summary IS NULL OR summary = '')` from the `from_summary` CTE. -/
def summaryPresent (e : EntryRecord) : Bool :=
  match e.summary with
  | none => false
  | some s => decide (s ≠ "")

/-- SQLite's `lower()`: ASCII-only case folding, character by character. -/
def sqliteLower (s : String) : String :=
  String.mk (s.data.map Char.toLower)

/-- The content-type condition of the `from_content` CTE:
`json_object_get(json_each.value, 'type') IS NULL OR lower(type) IN
('text/html', 'text/xhtml', 'text/plain')`. -/
def eligibleType (t : Option String) : Bool :=
  match t with
  | none => true
  | some t =>
      decide (sqliteLower t = "text/html" ∨ sqliteLower t = "text/xhtml"
        ∨ sqliteLower t = "text/plain")

/-- `json_valid(content) AND json_array_length(content) > 0` from the
`from_content` CTE (`none` models NULL-or-invalid JSON). -/
def contentUsable (e : EntryRecord) : Bool :=
  match e.content with
  | none => false
  | some l => decide (l ≠ [])

/-- The `_content_path` locator built by `from_content`:
`'.content[' || json_each.key || '].value'`. -/
def contentPath (i : Nat) : String :=
  ".content[" ++ toString i ++ "].value"

/-- A row of the `union_all` CTE in `_insert_into_search`:
`(id, feed, content_path, title, content_text)`. -/
structure UnionRow where
  id : String
  feed : String
  content_path : Option String
  title : Option String
  content_text : Option String
deriving DecidableEq

/-- The `from_summary` CTE rows contributed by one entry (the
`to_update` join condition is applied by the caller). -/
def from_summary (sh : String → String) (e : EntryRecord) : List UnionRow :=
  if summaryPresent e then
    [⟨e.id, e.feed, some ".summary", e.title.map sh, e.summary.map sh⟩]
  else []

/-- The `from_content` CTE rows contributed by one entry: one row per
`json_each` element of the content array whose `type` is absent or
HTML/XHTML/plain, carrying locator `.content[i].value`. -/
def from_content (sh : String → String) (e : EntryRecord) : List UnionRow :=
  if contentUsable e then
    ((e.content.getD []).enum).filterMap fun ic =>
      if eligibleType ic.2.type then
        some ⟨e.id, e.feed, some (contentPath ic.1), e.title.map sh,
          ic.2.value.map sh⟩
      else none
  else []

/-- The `from_default` CTE row contributed by one entry: when the summary is
NULL or empty and the content column is invalid JSON, NULL, or an empty
array, a single row with NULL locator and NULL content text. -/
def from_default (sh : String → String) (e : EntryRecord) : List UnionRow :=
  if !summaryPresent e && !contentUsable e then
    [⟨e.id, e.feed, none, e.title.map sh, none⟩]
  else []

/-- All `union_all` rows contributed by one entry (before the `UNION`
duplicate elimination, which is applied over the whole result in
`unionAll`). -/
def deriveEntryRows (sh : String → String) (e : EntryRecord) : List UnionRow :=
  from_summary sh e ++ from_content sh e ++ from_default sh e

/-- The `JOIN entries USING (id, feed)` against the sync-state rows with
`to_update` set: every entry matching some `to_update` row. -/
def toUpdateEntries (s : State) : List EntryRecord :=
  (s.sync_state.filter fun r => r.to_update).flatMap fun r =>
    s.entries.filter fun e => decide (e.id = r.id ∧ e.feed = r.feed)

/-- The full `union_all` CTE: rows of all three sub-selects over all
`to_update` entries, with `UNION`'s duplicate elimination (modelled by
`List.dedup`; SQL leaves the order unspecified, the model keeps list
order). -/
def unionAll (sh : String → String) (s : State) : List UnionRow :=
  ((toUpdateEntries s).flatMap (deriveEntryRows sh)).dedup

/-- One inserted `entries_search` row: the final SELECT's column list
`(title, content_text, strip_html(coalesce(user_title, title)), id, feed,
content_path, user_title IS NOT NULL)` for one `union_all` row joined with
its feed. -/
def mkDoc (sh : String → String) (u : UnionRow) (f : FeedRecord) : SearchDocument :=
  ⟨u.title, u.content_text, ((f.user_title.or f.title).map sh),
    u.id, u.feed, u.content_path, f.user_title.isSome⟩

/-- The final SELECT of `_insert_into_search`: `union_all` joined with
`feeds` on `feeds.url = union_all.feed`. -/
def insertedDocs (sh : String → String) (s : State) : List SearchDocument :=
  (unionAll sh s).flatMap fun u =>
    (s.feeds.filter fun f => decide (f.url = u.feed)).map (mkDoc sh u)

/-- The documents currently indexed for one entry key. -/
def docsForKey (s : State) (i f : String) : List SearchDocument :=
  s.entries_search.filter fun d => decide (d.doc_id = i ∧ d.doc_feed = f)

/-- `Search._insert_into_search`: append the derived documents to
`entries_search`. -/
def insert_into_search (sh : String → String) (s : State) : State :=
  { s with entries_search := s.entries_search ++ insertedDocs sh s }

/-! ## Stale-document removal: `Search._delete_from_search` -/

/-- Whether key `(i, f)` appears in the dirty set: some sync-state row with
that key has `to_update` or `to_delete` set. -/
def dirtyKey (sync : List SyncStateRecord) (i f : String) : Bool :=
  sync.any fun r => (r.to_update || r.to_delete) && decide (r.id = i ∧ r.feed = f)

/-- The join
`SELECT esss.id, esss.feed FROM entries_search_sync_state AS esss JOIN
entries_search ON (esss.id, esss.feed) = (_id, _feed) WHERE to_update OR
to_delete`: one `(id, feed)` pair per (dirty sync row, matching document)
pair. -/
def dirtyPairsJoin (sync : List SyncStateRecord) (docs : List SearchDocument) :
    List (String × String) :=
  sync.flatMap fun r =>
    if r.to_update || r.to_delete then
      (docs.filter fun d => decide (d.doc_id = r.id ∧ d.doc_feed = r.feed)).map
        fun _ => (r.id, r.feed)
    else []

/-- `DELETE FROM entries_search WHERE (_id, _feed) IN input` for an explicit
list of key pairs. -/
def deleteDocsWithKeys (ks : List (String × String))
    (docs : List SearchDocument) : List SearchDocument :=
  docs.filter fun d => !(ks.contains (d.doc_id, d.doc_feed))

/-- The chunked loop of `_delete_from_search` (the `chunk_size > 0` branch):
select up to `chunk` pairs from the dirty join, delete the matching
documents, stop when the fetch is empty or returned fewer than `chunk`
rows. -/
def delete_from_search_loop (chunk : Nat) (s : State) : Nat → State
  | 0 => s
  | fuel + 1 =>
      let td := (dirtyPairsJoin s.sync_state s.entries_search).take chunk
      if td.isEmpty then s
      else
        let s' := { s with entries_search := deleteDocsWithKeys td s.entries_search }
        if td.length < chunk then s'
        else delete_from_search_loop chunk s' fuel

/-- `Search._delete_from_search`: with `chunk_size = 0`, one unbounded
`DELETE` of every document whose key is in the dirty set; otherwise the
chunked loop (fuel `|entries_search| + 1` suffices: every productive
iteration deletes at least one document). -/
def delete_from_search (chunk : Nat) (s : State) : State :=
  if chunk = 0 then
    { s with entries_search :=
        s.entries_search.filter fun d => !dirtyKey s.sync_state d.doc_id d.doc_feed }
  else delete_from_search_loop chunk s (s.entries_search.length + 1)

/-! ## Tombstone removal: `Search._delete_from_sync_state` -/

/-- Keys of all rows with `to_delete` set, in table order. -/
def toDeleteKeys (sync : List SyncStateRecord) : List (String × String) :=
  (sync.filter fun r => r.to_delete).map fun r => (r.id, r.feed)

/-- Keys of the rows selected by
`SELECT id, feed FROM entries_search_sync_state WHERE to_delete LIMIT n`
(`n = -1`, i.e. no limit, when `chunk_size` is 0). -/
def toDeleteSelected (chunk : Nat) (sync : List SyncStateRecord) :
    List (String × String) :=
  (toDeleteKeys sync).take (if chunk = 0 then sync.length else chunk)

/-- One `DELETE FROM entries_search_sync_state WHERE (id, feed) IN (...)`
statement; returns the new table and the statement's rowcount. -/
def deleteSyncRows (ks : List (String × String)) (sync : List SyncStateRecord) :
    List SyncStateRecord × Nat :=
  let kept := sync.filter fun r => !(ks.contains (r.id, r.feed))
  (kept, sync.length - kept.length)

/-- The loop of `_delete_from_sync_state`: delete up to `chunk_size` (or all,
when `chunk_size = 0`) tombstoned rows per iteration; break immediately when
`chunk_size = 0`, or when the rowcount is below `chunk_size`. -/
def delete_from_sync_state_loop (chunk : Nat) (s : State) : Nat → State
  | 0 => s
  | fuel + 1 =>
      let sel := toDeleteSelected chunk s.sync_state
      let res := deleteSyncRows sel s.sync_state
      let s' := { s with sync_state := res.1 }
      if chunk = 0 then s'
      else if res.2 < chunk then s'
      else delete_from_sync_state_loop chunk s' fuel

/-- `Search._delete_from_sync_state` (fuel `|sync_state| + 1` suffices: every
continuing iteration deletes at least `chunk ≥ 1` rows). -/
def delete_from_sync_state (chunk : Nat) (s : State) : State :=
  delete_from_sync_state_loop chunk s (s.sync_state.length + 1)

/-! ## Flag clearing and `Search._update` / `Search.update` -/

/-- `UPDATE entries_search_sync_state SET to_update = 0 WHERE to_update`. -/
def clear_to_update (s : State) : State :=
  { s with sync_state :=
      s.sync_state.map fun r =>
        if r.to_update then { r with to_update := false } else r }

/-- `Search._update` after the bs4 check: the three phases in order
(stale-document removal, tombstone removal, then re-insertion and flag
clearing in one transaction). -/
def search_update (chunk : Nat) (sh : String → String) (s : State) : State :=
  clear_to_update
    (insert_into_search sh (delete_from_sync_state chunk (delete_from_search chunk s)))

/-- `Search.update`: if bs4 is missing, `_update` raises `SearchError` before
touching the database; otherwise, when the search tables do not exist the
first statement raises `sqlite3.OperationalError` ("no such table"), which
`update` converts to `SearchNotEnabledError`; otherwise the pure update
runs. -/
def update (bs4 : Bool) (chunk : Nat) (sh : String → String) (s : State) :
    Except SearchExc State :=
  if !bs4 then .error .searchError
  else if !s.search_enabled then .error .searchNotEnabled
  else .ok (search_update chunk sh s)

/-! ## Schema lifecycle: `Search.enable` / `Search.disable` -/

/-- The backfill in `_enable`:
`INSERT INTO entries_search_sync_state SELECT id, feed, 1, 0 FROM entries`. -/
def backfillSyncState (entries : List EntryRecord) : List SyncStateRecord :=
  entries.map fun e => ⟨e.id, e.feed, true, false⟩

/-- `Search._enable` run in a state where the tables do not exist: create the
empty `entries_search` table and the sync-state table backfilled from
`entries`, all in one DDL transaction. -/
def enableSchema (s : State) : State :=
  { s with
    search_enabled := true
    entries_search := []
    sync_state := backfillSyncState s.entries }

/-- `Search.enable`: when the tables already exist, `CREATE VIRTUAL TABLE
entries_search` raises `sqlite3.OperationalError` with message
"table entries_search already exists", the DDL transaction rolls back, and
`enable` catches exactly that message and returns successfully, leaving the
existing schema in place. -/
def enable (s : State) : Except SearchExc State :=
  if s.search_enabled then .ok s else .ok (enableSchema s)

/-- `Search.disable`: drop both tables (and the triggers)
unconditionally (`DROP ... IF EXISTS`). -/
def disable (s : State) : State :=
  { s with search_enabled := false, entries_search := [], sync_state := [] }

/-- The canonical result of phase 1, for any chunk size: delete exactly the
documents whose key is in the dirty set. -/
def deleteFromSearchSpec (s : State) : State :=
  { s with entries_search :=
      s.entries_search.filter fun d => !dirtyKey s.sync_state d.doc_id d.doc_feed }

/-- The number of documents whose key is in the dirty set. -/
def dirtyDocCount (s : State) : Nat :=
  (s.entries_search.filter fun d => dirtyKey s.sync_state d.doc_id d.doc_feed).length

/-- The canonical result of phase 2, for any chunk size: delete exactly the
rows whose key is the key of some tombstoned row. -/
def deleteFromSyncStateSpec (s : State) : State :=
  { s with sync_state :=
      s.sync_state.filter fun r => !(toDeleteKeys s.sync_state).contains (r.id, r.feed) }

/-- A state whose dirty set is empty. -/
def cleanSync (s : State) : Prop :=
  ∀ r ∈ s.sync_state, r.to_update = false ∧ r.to_delete = false

/-! ## Query side: `make_search_entries_query` and `search_entries`

The `MATCH` filtering, `bm25` ranking and `snippet()` highlighting are
performed by the external FTS5 engine, so the rows of the inner `search` CTE
are an input of the model.  What `_search.py` itself contributes — grouping,
`min(rank)` aggregation, `json_group_array` collection, ordering, keyset
pagination and `value_factory` — is embedded below. -/

/-- The `json_object('path', _content_path, 'value', snippet(...), 'rank',
rank)` built for the `content` column of the inner `search` CTE. -/
structure ContentJson where
  path : Option String
  value : Option String
  rank : Int
deriving DecidableEq

/-- One row of the inner `search` CTE of `make_search_entries_query`
(one row per matching index document): `_id`, `_feed`, `rank`, the title
snippet, the feed snippet, `_is_feed_user_title`, and the content JSON
object. -/
structure SearchRow where
  doc_id : String
  doc_feed : String
  rank : Int
  title : Option String
  feed : Option String
  is_feed_user_title : Bool
  content : ContentJson
deriving DecidableEq

/-- The row produced by the outer query for one `(_id, _feed)` group — the
tuple unpacked by `value_factory`: id, feed, `min(rank)`, the bare columns,
and `json_group_array` of the group's content objects. -/
structure GroupedRow where
  entry_id : String
  feed_url : String
  rank : Int
  title : Option String
  feed : Option String
  is_feed_user_title : Bool
  content : List ContentJson
deriving DecidableEq

/-- The row of a `min(rank)` group supplying the bare columns: SQLite
guarantees that in an aggregate query using `min()`, unaggregated columns
come from a row where the minimum is attained (the first such row in scan
order, since the running minimum is replaced only on strict decrease). -/
def minRankRow (r₀ : SearchRow) (rs : List SearchRow) : SearchRow :=
  rs.foldl (fun acc r => if r.rank < acc.rank then r else acc) r₀

/-- The group for key `k`: the matching rows, their minimum rank, the bare
columns from the min-rank row, and all content objects in scan order
(`none` when no row matches, in which case `k` is not a group key). -/
def groupFor (rows : List SearchRow) (k : String × String) : Option GroupedRow :=
  match rows.filter (fun r => decide (r.doc_id = k.1 ∧ r.doc_feed = k.2)) with
  | [] => none
  | r₀ :: rs =>
      some ⟨k.1, k.2, (minRankRow r₀ rs).rank, (minRankRow r₀ rs).title,
        (minRankRow r₀ rs).feed, (minRankRow r₀ rs).is_feed_user_title,
        (r₀ :: rs).map fun r => r.content⟩

/-- `GROUP BY search._id, search._feed`: one group per distinct key. -/
def queryGroups (rows : List SearchRow) : List GroupedRow :=
  ((rows.map fun r => (r.doc_id, r.doc_feed)).dedup).filterMap (groupFor rows)

/-- The pagination key of a result row: the tuple
`(rank, search._feed, search._id)` used by `scrolling_window_order_by`. -/
def rowKey (g : GroupedRow) : Int × String × String :=
  (g.rank, g.feed_url, g.entry_id)

/-- Strict lexicographic order on the key tuple (`ORDER BY rank,
search._feed, search._id`, all ascending). -/
def keyLt (a b : Int × String × String) : Prop :=
  a.1 < b.1 ∨ (a.1 = b.1 ∧ (a.2.1 < b.2.1 ∨ (a.2.1 = b.2.1 ∧ a.2.2 < b.2.2)))

instance keyLt.instDecidable (a b : Int × String × String) :
    Decidable (keyLt a b) := by
  unfold keyLt
  infer_instance

/-- The reflexive closure of `keyLt`, used for sorting. -/
def keyLe (a b : Int × String × String) : Prop :=
  keyLt a b ∨ a = b

instance keyLe.instDecidable (a b : Int × String × String) :
    Decidable (keyLe a b) := by
  unfold keyLe
  infer_instance

/-- Comparison of result rows by their pagination key. -/
def rowLe (a b : GroupedRow) : Prop :=
  keyLe (rowKey a) (rowKey b)

instance rowLe.instDecidable (a b : GroupedRow) : Decidable (rowLe a b) := by
  unfold rowLe
  infer_instance

/-- `make_search_entries_query` applied to a set of matching index rows, with
no cursor and no row limit: group by entry key, aggregate, and order by the
key tuple.  (`List.insertionSort` is a stable sort; SQL leaves the relative
order of equal keys unspecified, and equal keys cannot occur here since the
group keys are distinct.) -/
def queryResults (rows : List SearchRow) : List GroupedRow :=
  List.insertionSort rowLe (queryGroups rows)

/-- Modelled from the spec: the keyset-pagination window applied by
`Query.scrolling_window_order_by` and `paginated_query`
(`reader/_sql_utils.py` / `reader/_sqlite_utils.py`, not under `src/`).
Per §4.5, a page request carries an optional cursor — the key tuple of the
last row consumed — and the query appends a tie-break predicate equivalent
to "key strictly greater than the cursor" instead of `OFFSET`. -/
def remainingRows (base : List GroupedRow)
    (last : Option (Int × String × String)) : List GroupedRow :=
  match last with
  | none => base
  | some k => base.filter fun g => decide (keyLt k (rowKey g))

/-- Modelled from the spec: one page of up to `chunk` rows after the
cursor. -/
def searchPage (base : List GroupedRow) (chunk : Nat)
    (last : Option (Int × String × String)) : List GroupedRow :=
  (remainingRows base last).take chunk

/-- Modelled from the spec: iterate page by page, passing the key of the last
consumed row as the next cursor, until a page comes back empty (§4.4/§8). -/
def paginateFrom (base : List GroupedRow) (chunk : Nat)
    (last : Option (Int × String × String)) : Nat → List GroupedRow
  | 0 => []
  | fuel + 1 =>
      let p := searchPage base chunk last
      match p.getLast? with
      | none => []
      | some g => p ++ paginateFrom base chunk (some (rowKey g)) fuel

/-- Modelled from the spec: the whole cursor iteration, started with no
cursor (fuel `|base| + 1` suffices: every page consumed is non-empty). -/
def paginateAll (base : List GroupedRow) (chunk : Nat) : List GroupedRow :=
  paginateFrom base chunk none (base.length + 1)

/-- `HighlightedString` (`reader/types.py`, not under `src/`): a text value
with an ordered list of half-open highlight spans. -/
structure HighlightedString where
  value : String
  spans : List (Nat × Nat)
deriving DecidableEq

/-- Modelled from the spec: `HighlightedString.extract` is defined in
`reader/types.py`, which is not under `src/`.  Per §4.6: scan left to right;
a before-mark records the current output length as a span start, the
matching after-mark records the current output length as the span end; the
marks themselves are stripped and never appear in the value. -/
def HighlightedString.extract (s before after : String) : HighlightedString :=
  match s.splitOn before with
  | [] => ⟨"", []⟩
  | p₀ :: rest =>
      let step := fun (acc : String × List (Nat × Nat)) (p : String) =>
        match p.splitOn after with
        | [] => acc
        | m :: tail =>
            (acc.1 ++ m ++ String.join tail,
              acc.2 ++ [(acc.1.length, acc.1.length + m.length)])
      let r := rest.foldl step (p₀, [])
      ⟨r.1, r.2⟩

/-- Python truthiness of a nullable string column (`if title:` in
`value_factory`): neither None nor the empty string. -/
def truthyStr (o : Option String) : Bool :=
  match o with
  | none => false
  | some s => decide (s ≠ "")

/-- `EntrySearchResult` (`reader/types.py`, not under `src/`): the metadata
and content mappings are Python dicts, which preserve insertion order;
modelled as association lists. -/
structure EntrySearchResult where
  feed_url : String
  entry_id : String
  metadata : List (String × HighlightedString)
  content : List (String × HighlightedString)
deriving DecidableEq

/-- `Search.search_entries.value_factory`: unpack a grouped row into an
`EntrySearchResult`.  `.title` is present when the title snippet is truthy;
`.feed.title` or `.feed.user_title` (chosen by `_is_feed_user_title`) when
the feed snippet is truthy; the content mapping collects the grouped content
objects whose `path` is truthy, in group order. -/
def value_factory (before after : String) (g : GroupedRow) : EntrySearchResult :=
  let metadata :=
    (if truthyStr g.title then
      [(".title", HighlightedString.extract (g.title.getD "") before after)]
    else []) ++
    (if truthyStr g.feed then
      [((if g.is_feed_user_title then ".feed.user_title" else ".feed.title"),
        HighlightedString.extract (g.feed.getD "") before after)]
    else [])
  let rv_content := (g.content.filter fun c => truthyStr c.path).map fun c =>
    (c.path.getD "", HighlightedString.extract (c.value.getD "") before after)
  ⟨g.feed_url, g.entry_id, metadata, rv_content⟩

/-- `Search.search_entries`, consumed to a list: when the search tables do
not exist, running the query raises `sqlite3.OperationalError` ("no such
table"), which the `except` clause converts to `SearchNotEnabledError`;
otherwise one page of results is produced, each row paired with its
pagination key (the cursor a caller passes back to resume). -/
def search_entries (s : State) (rows : List SearchRow) (before after : String)
    (chunk : Nat) (last : Option (Int × String × String)) :
    Except SearchExc (List (EntrySearchResult × (Int × String × String))) :=
  if !s.search_enabled then .error .searchNotEnabled
  else .ok ((searchPage (queryResults rows) chunk last).map
    fun g => (value_factory before after g, rowKey g))

/-! ## Concrete witness data -/

/-- A concrete entry used as witness input below. -/
def exEntry : EntryRecord :=
  ⟨"e1", "f1", some "Title", some "Summary", some [⟨some "c0", some "text/html"⟩]⟩

/-- A concrete feed used as witness input below. -/
def exFeed : FeedRecord := ⟨"f1", some "Feed", none⟩

/-- A concrete index document for `exEntry`. -/
def exDoc : SearchDocument :=
  ⟨some "Title", some "Summary", some "Feed", "e1", "f1", some ".summary", false⟩

/-- An enabled state whose dirty set is empty. -/
def exCleanState : State :=
  ⟨[exEntry], [exFeed], [exDoc], [⟨"e1", "f1", false, false⟩], true⟩

/-- An enabled state with one tombstoned sync row and a matching document
(the entry itself has already been deleted from the primary store). -/
def exC3State : State :=
  ⟨[], [exFeed], [exDoc], [⟨"e1", "f1", false, true⟩], true⟩

/-- A state in which search is disabled (the index and sync-state tables do
not exist). -/
def exDisabledState : State := ⟨[exEntry], [exFeed], [], [], false⟩

/-! ## Decimal printing is injective

`contentPath` embeds a decimal index in a locator string; distinctness of
locators reduces to injectivity of `Nat.repr`. -/

/-- The numeric value of a decimal digit character. -/
def charVal (c : Char) : Nat := c.toNat - 48

/-- The number denoted by a list of decimal digit characters. -/
def digitsVal (l : List Char) : Nat :=
  l.foldl (fun a c => a * 10 + charVal c) 0

/-! ## The content-selection rule as the specification words it -/

/-- The eligibility test as worded by §3 of the specification: the variant's
type is HTML, XHTML, or plain text (an absent type is not mentioned). -/
def specEligibleType (t : Option String) : Bool :=
  match t with
  | none => false
  | some t =>
      decide (sqliteLower t = "text/html" ∨ sqliteLower t = "text/xhtml"
        ∨ sqliteLower t = "text/plain")

/-- The content-selection rule exactly as §3 of the specification words it,
for comparison with the code's behaviour: at most one selected content text
per entry — (a) the entry's non-empty summary; (b) otherwise the first
content variant whose type is HTML, XHTML, or plain text; (c) otherwise
none. -/
def specSelectedContent (e : EntryRecord) : Option (String × Option String) :=
  if summaryPresent e then some (".summary", e.summary)
  else
    match (e.content.getD []).enum.find? (fun ic => specEligibleType ic.2.type) with
    | some ic => some (contentPath ic.1, ic.2.value)
    | none => none

/-- An entry with both a non-empty summary and an HTML content variant. -/
def exC1Entry : EntryRecord :=
  ⟨"e1", "f1", some "T", some "S", some [⟨some "C", some "text/html"⟩]⟩

/-- An enabled state in which `exC1Entry` is pending reindexing. -/
def exC1State : State :=
  ⟨[exC1Entry], [exFeed], [], [⟨"e1", "f1", true, false⟩], true⟩

/-- An entry with no summary whose only content variant is a PDF (not an
eligible type). -/
def exC2Entry : EntryRecord :=
  ⟨"e2", "f1", some "T", none, some [⟨some "P", some "application/pdf"⟩]⟩

/-- An enabled state in which `exC2Entry` is pending reindexing. -/
def exC2State : State :=
  ⟨[exC2Entry], [exFeed], [], [⟨"e2", "f1", true, false⟩], true⟩

/-- Two concrete matching rows for distinct entries (used as C4 witness
input). -/
def exRows : List SearchRow :=
  [⟨"e1", "f1", 5, some "A", some "F", false, ⟨some ".summary", some "v1", 5⟩⟩,
   ⟨"e2", "f1", 3, some "B", some "F", false, ⟨some ".summary", some "v2", 3⟩⟩]

/-- A concrete grouped row with one real locator and one NULL locator (used
as C10 witness input). -/
def exGrouped : GroupedRow :=
  ⟨"e1", "f1", 3, some "T", some "F", false,
    [⟨some ".summary", some "v", 3⟩, ⟨none, none, 3⟩]⟩

/-! ## The change-capture transition system (claim C9)

The triggers installed by `_enable` are in `_search.py`; the primary-store
mutations that fire them live in `reader/_storage.py`, which is not under
`src/`.  The mutation operations below are therefore modelled from the spec
(§4.2, §6): each primary-store write and its trigger effect happen inside
one transaction, and a failed statement (a primary-key or foreign-key
violation) rolls the whole transaction back, leaving the state unchanged. -/

/-- Modelled from the spec: inserting an entry.  The
`entries_search_entries_insert` trigger (from `_search.py`) inserts
`(new.id, new.feed, 1, 0)` into the sync-state table in the same
transaction.  The transaction fails — no change — if the entry key exists
(entries primary key), if a sync-state row with that key exists (the
trigger's `INSERT` violates the sync-state primary key), or if the feed does
not exist (entries belong to a feed, §3). -/
def insertEntryOp (e : EntryRecord) (s : State) : State :=
  if (s.entries.any fun x => decide (x.id = e.id ∧ x.feed = e.feed)) ||
      (s.sync_state.any fun r => decide (r.id = e.id ∧ r.feed = e.feed)) ||
      !(s.feeds.any fun x => decide (x.url = e.feed)) then s
  else
    { s with
      entries := e :: s.entries,
      sync_state := ⟨e.id, e.feed, true, false⟩ :: s.sync_state }

/-- Modelled from the spec: updating an entry in place (the key does not
change); the `entries_search_entries_update` trigger sets `to_update = 1` on
the sync-state row with the entry's key. -/
def updateEntryOp (i fd : String) (g : EntryRecord → EntryRecord)
    (s : State) : State :=
  { s with
    entries := s.entries.map fun x =>
      if x.id = i ∧ x.feed = fd then g x else x,
    sync_state := s.sync_state.map fun r =>
      if r.id = i ∧ r.feed = fd then { r with to_update := true } else r }

/-- Modelled from the spec: deleting an entry; the
`entries_search_entries_delete` trigger sets `to_delete = 1` on the
sync-state row with the entry's key (document removal is deferred). -/
def deleteEntryOp (i fd : String) (s : State) : State :=
  { s with
    entries := s.entries.filter fun x => !decide (x.id = i ∧ x.feed = fd),
    sync_state := s.sync_state.map fun r =>
      if r.id = i ∧ r.feed = fd then { r with to_delete := true } else r }

/-- Modelled from the spec: updating a feed in place (the url does not
change); the `entries_search_feeds_update` trigger sets `to_update = 1` on
every sync-state row of that feed. -/
def updateFeedOp (url : String) (g : FeedRecord → FeedRecord)
    (s : State) : State :=
  { s with
    feeds := s.feeds.map fun x => if x.url = url then g x else x,
    sync_state := s.sync_state.map fun r =>
      if r.feed = url then { r with to_update := true } else r }

/-- Modelled from the spec: inserting a feed (no trigger action: a new feed
has no entries). -/
def insertFeedOp (f : FeedRecord) (s : State) : State :=
  if s.feeds.any fun x => decide (x.url = f.url) then s
  else { s with feeds := f :: s.feeds }

/-- Modelled from the spec: deleting a feed deletes its entries, and the
entry-delete trigger fires once per deleted entry. -/
def deleteFeedOp (url : String) (s : State) : State :=
  { s with
    feeds := s.feeds.filter fun x => !decide (x.url = url),
    entries := s.entries.filter fun x => !decide (x.feed = url),
    sync_state := s.sync_state.map fun r =>
      if s.entries.any fun x =>
          decide (x.feed = url ∧ x.id = r.id ∧ x.feed = r.feed) then
        { r with to_delete := true }
      else r }

/-- The primary-key and foreign-key discipline of the primary store at the
moment search is enabled. -/
def WFBase (entries : List EntryRecord) (feeds : List FeedRecord) : Prop :=
  entries.Pairwise (fun x y => (x.id, x.feed) ≠ (y.id, y.feed)) ∧
  feeds.Pairwise (fun x y => x.url ≠ y.url) ∧
  ∀ e ∈ entries, ∃ f ∈ feeds, f.url = e.feed

/-- States reachable, while search stays enabled, from `enable()` run on a
well-formed primary store, by entry/feed mutations (each firing its
change-capture trigger in the same transaction) and by `update()` passes. -/
inductive Reachable : State → Prop
  | enable (s₀ : State) (h : WFBase s₀.entries s₀.feeds) :
      Reachable (enableSchema s₀)
  | insertEntry (s : State) (e : EntryRecord) :
      Reachable s → Reachable (insertEntryOp e s)
  | updateEntry (s : State) (i fd : String) (g : EntryRecord → EntryRecord)
      (hg : ∀ x, (g x).id = x.id ∧ (g x).feed = x.feed) :
      Reachable s → Reachable (updateEntryOp i fd g s)
  | deleteEntry (s : State) (i fd : String) :
      Reachable s → Reachable (deleteEntryOp i fd s)
  | updateFeed (s : State) (url : String) (g : FeedRecord → FeedRecord)
      (hg : ∀ x, (g x).url = x.url) :
      Reachable s → Reachable (updateFeedOp url g s)
  | insertFeed (s : State) (f : FeedRecord) :
      Reachable s → Reachable (insertFeedOp f s)
  | deleteFeed (s : State) (url : String) :
      Reachable s → Reachable (deleteFeedOp url s)
  | runUpdate (s : State) (chunk : Nat) (sh : String → String) :
      Reachable s → Reachable (search_update chunk sh s)

/-- The sync-state invariant: every entry of the primary store has a
sync-state row with its key that is not tombstoned, and both tables satisfy
their key constraints. -/
def SyncInv (s : State) : Prop :=
  (∀ e ∈ s.entries, ∃ r ∈ s.sync_state,
    r.id = e.id ∧ r.feed = e.feed ∧ r.to_delete = false) ∧
  s.sync_state.Pairwise (fun x y => (x.id, x.feed) ≠ (y.id, y.feed)) ∧
  s.entries.Pairwise (fun x y => (x.id, x.feed) ≠ (y.id, y.feed))

/-! ## Canonical form of the two deletion phases

The chunked loops compute the same result as the unbounded statements; this
is established once and reused by most theorems below. -/

theorem contains_iff {α : Type} [BEq α] [LawfulBEq α] (l : List α) (a : α) :
    l.contains a = true ↔ a ∈ l :=
  List.elem_iff

/-- A conjunctive filter is a sublist of the filter by the second conjunct. -/
theorem filter_and_sublist {α : Type} (l : List α) (p q : α → Bool) :
    (l.filter fun a => p a && q a).Sublist (l.filter q) := by
  rw [← List.filter_filter]
  exact List.filter_sublist _

/-- A conjunctive filter is strictly shorter than the filter by the second
conjunct as soon as one element satisfies the second conjunct but not the
first. -/
theorem length_filter_and_lt {α : Type} (l : List α) (p q : α → Bool)
    (h : ∃ a ∈ l, q a = true ∧ p a = false) :
    (l.filter fun a => p a && q a).length < (l.filter q).length := by
  induction l with
  | nil => simp at h
  | cons a t ih =>
    obtain ⟨b, hb, hq, hp⟩ := h
    rcases List.mem_cons.mp hb with rfl | hbt
    · have h2 := (filter_and_sublist t p q).length_le
      simp [List.filter_cons, hp, hq]
      omega
    · have hlt := ih ⟨b, hbt, hq, hp⟩
      cases hqa : q a <;> cases hpa : p a <;>
        simp [List.filter_cons, hqa, hpa] <;> omega

theorem dirtyKey_iff {sync : List SyncStateRecord} {i f : String} :
    dirtyKey sync i f = true ↔
      ∃ r ∈ sync, (r.to_update || r.to_delete) = true ∧ r.id = i ∧ r.feed = f := by
  simp [dirtyKey, List.any_eq_true, Bool.and_eq_true, decide_eq_true_eq]

theorem mem_dirtyPairsJoin {sync : List SyncStateRecord}
    {docs : List SearchDocument} {i f : String} :
    (i, f) ∈ dirtyPairsJoin sync docs ↔
      dirtyKey sync i f = true ∧ ∃ d ∈ docs, d.doc_id = i ∧ d.doc_feed = f := by
  constructor
  · intro h
    simp only [dirtyPairsJoin, List.mem_flatMap] at h
    obtain ⟨r, hr, hmem⟩ := h
    by_cases hflag : (r.to_update || r.to_delete) = true
    · rw [if_pos hflag] at hmem
      obtain ⟨d, hd, hpair⟩ := List.mem_map.mp hmem
      obtain ⟨hdocs, hkey⟩ := List.mem_filter.mp hd
      rw [decide_eq_true_eq] at hkey
      obtain ⟨hpi, hpf⟩ := Prod.mk.injEq .. ▸ hpair
      refine ⟨dirtyKey_iff.mpr ⟨r, hr, hflag, hpi, hpf⟩, d, hdocs, ?_, ?_⟩
      · rw [hkey.1, hpi]
      · rw [hkey.2, hpf]
    · rw [if_neg hflag] at hmem
      simp at hmem
  · rintro ⟨hdk, d, hd, hdi, hdf⟩
    obtain ⟨r, hr, hflag, hri, hrf⟩ := dirtyKey_iff.mp hdk
    simp only [dirtyPairsJoin, List.mem_flatMap]
    refine ⟨r, hr, ?_⟩
    rw [if_pos hflag]
    exact List.mem_map.mpr
      ⟨d, List.mem_filter.mpr ⟨hd, by simp [hdi, hdf, hri, hrf]⟩, by simp [hri, hrf]⟩


theorem delete_from_search_loop_eq (chunk : Nat) (hc : 1 ≤ chunk) :
    ∀ (fuel : Nat) (s : State), dirtyDocCount s < fuel →
    delete_from_search_loop chunk s fuel =
      deleteFromSearchSpec s := by
  intro fuel
  induction fuel with
  | zero => intro s h; omega
  | succ fuel ih =>
    intro s hcount
    rw [delete_from_search_loop]
    by_cases hemp :
        ((dirtyPairsJoin s.sync_state s.entries_search).take chunk).isEmpty
    · rw [if_pos hemp]
      have hjoin : dirtyPairsJoin s.sync_state s.entries_search = [] := by
        rcases (List.take_eq_nil_iff).mp (List.isEmpty_iff.mp hemp) with h | h
        · omega
        · exact h
      unfold deleteFromSearchSpec
      have hclean : ∀ d ∈ s.entries_search,
          (!dirtyKey s.sync_state d.doc_id d.doc_feed) = true := by
        intro d hd
        by_cases hdk : dirtyKey s.sync_state d.doc_id d.doc_feed = true
        · exact absurd (mem_dirtyPairsJoin.mpr ⟨hdk, d, hd, rfl, rfl⟩)
            (by rw [hjoin]; exact List.not_mem_nil _)
        · simp [Bool.not_eq_true] at hdk ⊢
          exact hdk
      rw [List.filter_eq_self.mpr hclean]
    · rw [if_neg hemp]
      have htdsub :
          ∀ p ∈ (dirtyPairsJoin s.sync_state s.entries_search).take chunk,
            dirtyKey s.sync_state p.1 p.2 = true ∧
              ∃ d ∈ s.entries_search, d.doc_id = p.1 ∧ d.doc_feed = p.2 := by
        intro p hp
        exact mem_dirtyPairsJoin.mp (List.take_subset _ _ hp)
      by_cases hlt :
          ((dirtyPairsJoin s.sync_state s.entries_search).take chunk).length < chunk
      · rw [if_pos hlt]
        have hfull : (dirtyPairsJoin s.sync_state s.entries_search).take chunk =
            dirtyPairsJoin s.sync_state s.entries_search := by
          apply List.take_of_length_le
          rw [List.length_take] at hlt
          omega
        have heq : deleteDocsWithKeys
            ((dirtyPairsJoin s.sync_state s.entries_search).take chunk)
            s.entries_search =
            s.entries_search.filter
              (fun d => !dirtyKey s.sync_state d.doc_id d.doc_feed) := by
          apply List.filter_congr
          intro d hd
          congr 1
          by_cases hdk : dirtyKey s.sync_state d.doc_id d.doc_feed = true
          · rw [hdk]
            apply (contains_iff _ _).mpr
            rw [hfull]
            exact mem_dirtyPairsJoin.mpr ⟨hdk, d, hd, rfl, rfl⟩
          · rw [Bool.not_eq_true] at hdk
            rw [hdk, Bool.eq_false_iff]
            intro hcon
            have hmem := (contains_iff _ _).mp hcon
            rw [hfull] at hmem
            rw [(mem_dirtyPairsJoin.mp hmem).1] at hdk
            simp at hdk
        unfold deleteFromSearchSpec
        rw [heq]
      · rw [if_neg hlt]
        set td := (dirtyPairsJoin s.sync_state s.entries_search).take chunk with htd
        set s' : State :=
          { s with entries_search := deleteDocsWithKeys td s.entries_search }
          with hs'
        have hsync : s'.sync_state = s.sync_state := rfl
        have hcontains_dirty : ∀ d ∈ s.entries_search,
            td.contains (d.doc_id, d.doc_feed) = true →
              dirtyKey s.sync_state d.doc_id d.doc_feed = true := by
          intro d _ hcon
          exact (htdsub _ (contains_iff _ _ |>.mp hcon)).1
        have hdec : dirtyDocCount s' < dirtyDocCount s := by
          have hne : td ≠ [] := by
            intro h
            rw [h] at hemp
            simp at hemp
          obtain ⟨p, hp⟩ := List.exists_mem_of_ne_nil td hne
          obtain ⟨hpdk, d₀, hd₀, hid₀, hfd₀⟩ := htdsub p hp
          have hcount_eq : dirtyDocCount s' =
              (s.entries_search.filter fun d =>
                (!td.contains (d.doc_id, d.doc_feed)) &&
                  dirtyKey s.sync_state d.doc_id d.doc_feed).length := by
            unfold dirtyDocCount
            rw [hsync, hs']
            show (List.filter _ (List.filter _ _)).length = _
            rw [List.filter_filter]
            congr 1
            exact List.filter_congr fun d _ => Bool.and_comm _ _
          rw [hcount_eq]
          apply length_filter_and_lt
          refine ⟨d₀, hd₀, ?_, ?_⟩
          · rw [hid₀, hfd₀]; exact hpdk
          · simp only [Bool.not_eq_false']
            apply contains_iff _ _ |>.mpr
            rw [hid₀, hfd₀]
            exact hp
        rw [ih s' (by omega)]
        have hfinal : s'.entries_search.filter
            (fun d => !dirtyKey s'.sync_state d.doc_id d.doc_feed) =
            s.entries_search.filter
              (fun d => !dirtyKey s.sync_state d.doc_id d.doc_feed) := by
          rw [hsync, hs']
          show List.filter _ (List.filter _ _) = _
          rw [List.filter_filter]
          apply List.filter_congr
          intro d hd
          by_cases hdk : dirtyKey s.sync_state d.doc_id d.doc_feed = true
          · simp [hdk]
          · rw [Bool.not_eq_true] at hdk
            rw [hdk]
            simp only [Bool.not_false, Bool.true_and]
            rw [Bool.not_eq_true', Bool.eq_false_iff]
            intro hcon
            have hcd := hcontains_dirty d hd hcon
            rw [hdk] at hcd
            exact Bool.false_ne_true hcd
        unfold deleteFromSearchSpec
        rw [hfinal]

/-- Phase 1 in canonical form: for every chunk size, `_delete_from_search`
removes exactly the documents whose key is in the dirty set. -/
theorem delete_from_search_eq (chunk : Nat) (s : State) :
    delete_from_search chunk s = deleteFromSearchSpec s := by
  unfold delete_from_search
  by_cases h : chunk = 0
  · rw [if_pos h]; rfl
  · rw [if_neg h]
    apply delete_from_search_loop_eq chunk (by omega)
    have := List.length_filter_le
      (fun d => dirtyKey s.sync_state d.doc_id d.doc_feed) s.entries_search
    unfold dirtyDocCount
    omega


theorem toDeleteKeys_length (sync : List SyncStateRecord) :
    (toDeleteKeys sync).length = (sync.filter fun r => r.to_delete).length := by
  unfold toDeleteKeys
  exact List.length_map _ _

theorem toDeleteKeys_length_le (sync : List SyncStateRecord) :
    (toDeleteKeys sync).length ≤ sync.length := by
  rw [toDeleteKeys_length]
  exact List.length_filter_le _ _

theorem toDeleteKeys_sublist {s₁ s₂ : List SyncStateRecord} (h : s₁.Sublist s₂) :
    (toDeleteKeys s₁).Sublist (toDeleteKeys s₂) :=
  (h.filter _).map _

theorem mem_toDeleteKeys {sync : List SyncStateRecord} {k : String × String} :
    k ∈ toDeleteKeys sync ↔
      ∃ r ∈ sync, r.to_delete = true ∧ (r.id, r.feed) = k := by
  unfold toDeleteKeys
  simp [List.mem_map, List.mem_filter, and_assoc]

theorem deleteSyncRows_fst (ks : List (String × String))
    (sync : List SyncStateRecord) :
    (deleteSyncRows ks sync).1 =
      sync.filter fun r => !(ks.contains (r.id, r.feed)) :=
  rfl

theorem deleteSyncRows_snd (ks : List (String × String))
    (sync : List SyncStateRecord) :
    (deleteSyncRows ks sync).2 =
      (sync.filter fun r => ks.contains (r.id, r.feed)).length := by
  have h := List.length_eq_length_filter_add
    (l := sync) (fun r => ks.contains (r.id, r.feed))
  show sync.length - (sync.filter fun r => !(ks.contains (r.id, r.feed))).length = _
  omega

theorem delete_from_sync_state_loop_eq (chunk : Nat) :
    ∀ (fuel : Nat) (s : State),
      (s.sync_state.filter fun r => r.to_delete).length < fuel →
      delete_from_sync_state_loop chunk s fuel = deleteFromSyncStateSpec s := by
  intro fuel
  induction fuel with
  | zero => intro s h; omega
  | succ fuel ih =>
    intro s hcount
    rw [delete_from_sync_state_loop]
    by_cases hz : chunk = 0
    · rw [if_pos hz]
      have hsel : toDeleteSelected chunk s.sync_state = toDeleteKeys s.sync_state := by
        unfold toDeleteSelected
        rw [if_pos hz]
        exact List.take_of_length_le (toDeleteKeys_length_le _)
      rw [hsel]
      rfl
    · rw [if_neg hz]
      have hsel : toDeleteSelected chunk s.sync_state =
          (toDeleteKeys s.sync_state).take chunk := by
        unfold toDeleteSelected
        rw [if_neg hz]
      by_cases hbr :
          (deleteSyncRows (toDeleteSelected chunk s.sync_state) s.sync_state).2 < chunk
      · rw [if_pos hbr]
        -- the fetch returned fewer than `chunk` keys, so it returned all of them
        have hfull : toDeleteSelected chunk s.sync_state = toDeleteKeys s.sync_state := by
          rw [hsel]
          apply List.take_of_length_le
          rw [deleteSyncRows_snd] at hbr
          -- the first `chunk` tombstoned rows are all deleted rows
          have hT : ((s.sync_state.filter fun r => r.to_delete).take chunk).Sublist
              (s.sync_state.filter fun r =>
                (toDeleteSelected chunk s.sync_state).contains (r.id, r.feed)) := by
            have hTsync : ((s.sync_state.filter fun r => r.to_delete).take chunk).Sublist
                s.sync_state :=
              (List.take_sublist _ _).trans (List.filter_sublist _)
            have hall : ∀ r ∈ (s.sync_state.filter fun r => r.to_delete).take chunk,
                ((toDeleteSelected chunk s.sync_state).contains (r.id, r.feed)) = true := by
              intro r hr
              apply (contains_iff _ _).mpr
              rw [hsel]
              unfold toDeleteKeys
              rw [← List.map_take]
              exact List.mem_map.mpr ⟨r, hr, rfl⟩
            have hTT := hTsync.filter
              (fun r => (toDeleteSelected chunk s.sync_state).contains (r.id, r.feed))
            rw [List.filter_eq_self.mpr hall] at hTT
            exact hTT
          have hTlen := hT.length_le
          rw [List.length_take] at hTlen
          by_cases hcf : (s.sync_state.filter fun r => r.to_delete).length < chunk
          · rw [toDeleteKeys_length]
            omega
          · exfalso
            rw [Nat.min_eq_left (by omega)] at hTlen
            omega
        rw [hfull]
        rfl
      · rw [if_neg hbr]
        -- at least one tombstoned row exists and its key was selected
        cases hK : s.sync_state.filter (fun r => r.to_delete) with
        | nil =>
          exfalso
          apply hbr
          rw [deleteSyncRows_snd]
          have : ∀ r ∈ s.sync_state,
              ((toDeleteSelected chunk s.sync_state).contains (r.id, r.feed)) = false := by
            intro r _
            rw [hsel]
            unfold toDeleteKeys
            rw [hK]
            simp
          calc (s.sync_state.filter fun r =>
                (toDeleteSelected chunk s.sync_state).contains (r.id, r.feed)).length
              = (s.sync_state.filter fun _ => false).length := by
                congr 1
                exact List.filter_congr this
            _ = 0 := by simp
            _ < chunk := by omega
        | cons r₀ rest =>
          have hr₀ : r₀ ∈ s.sync_state ∧ r₀.to_delete = true := by
            have : r₀ ∈ s.sync_state.filter (fun r => r.to_delete) := by
              rw [hK]; exact List.mem_cons_self _ _
            have h' := List.mem_filter.mp this
            exact ⟨h'.1, h'.2⟩
          have hr₀sel : ((toDeleteSelected chunk s.sync_state).contains
              (r₀.id, r₀.feed)) = true := by
            apply (contains_iff _ _).mpr
            rw [hsel]
            unfold toDeleteKeys
            rw [hK, List.map_cons]
            obtain ⟨m, rfl⟩ : ∃ m, chunk = m + 1 := ⟨chunk - 1, by omega⟩
            rw [List.take_succ_cons]
            exact List.mem_cons_self _ _
          set sel := toDeleteSelected chunk s.sync_state with hseldef
          set s' : State := { s with sync_state :=
            (deleteSyncRows sel s.sync_state).1 } with hsDef
          have hsSync : s'.sync_state =
              s.sync_state.filter (fun r => !(sel.contains (r.id, r.feed))) := by
            rw [hsDef]
            exact deleteSyncRows_fst _ _
          -- fuel decreases: at least one tombstoned row is deleted
          have hdec : (s'.sync_state.filter fun r => r.to_delete).length <
              (s.sync_state.filter fun r => r.to_delete).length := by
            rw [hsSync, List.filter_filter]
            have hswap : (s.sync_state.filter fun r =>
                r.to_delete && !(sel.contains (r.id, r.feed))) =
                (s.sync_state.filter fun r =>
                  (!(sel.contains (r.id, r.feed))) && r.to_delete) :=
              List.filter_congr fun r _ => Bool.and_comm _ _
            rw [hswap]
            apply length_filter_and_lt
            exact ⟨r₀, hr₀.1, hr₀.2, by rw [hr₀sel]; rfl⟩
          rw [ih s' (by omega)]
          -- removing already-selected tombstones does not change the final filter
          unfold deleteFromSyncStateSpec
          have hgoal : s'.sync_state.filter
              (fun r => !((toDeleteKeys s'.sync_state).contains (r.id, r.feed))) =
              s.sync_state.filter
                (fun r => !((toDeleteKeys s.sync_state).contains (r.id, r.feed))) := by
            rw [hsSync, List.filter_filter]
            apply List.filter_congr
            intro r hr
            by_cases hk : ((toDeleteKeys s.sync_state).contains (r.id, r.feed)) = true
            · rw [hk]
              by_cases hsk : (sel.contains (r.id, r.feed)) = true
              · rw [hsk]
                simp
              · rw [Bool.not_eq_true] at hsk
                obtain ⟨r₁, hr₁sync, hr₁td, hr₁k⟩ :=
                  mem_toDeleteKeys.mp ((contains_iff _ _).mp hk)
                have hr₁kept : r₁ ∈ s.sync_state.filter
                    (fun r => !(sel.contains (r.id, r.feed))) := by
                  apply List.mem_filter.mpr
                  refine ⟨hr₁sync, ?_⟩
                  rw [hr₁k, hsk]
                  rfl
                have hck : ((toDeleteKeys (s.sync_state.filter
                    (fun r => !(sel.contains (r.id, r.feed))))).contains
                      (r.id, r.feed)) = true := by
                  apply (contains_iff _ _).mpr
                  exact mem_toDeleteKeys.mpr ⟨r₁, hr₁kept, hr₁td, hr₁k⟩
                rw [hck]
                simp
            · rw [Bool.not_eq_true] at hk
              rw [hk]
              have hsk : (sel.contains (r.id, r.feed)) = false := by
                rw [Bool.eq_false_iff]
                intro hcon
                have := List.take_subset chunk _ ((contains_iff _ _).mp (hsel ▸ hcon))
                rw [(contains_iff _ _).mpr this] at hk
                simp at hk
              have hk' : ((toDeleteKeys (s.sync_state.filter
                  (fun r => !(sel.contains (r.id, r.feed))))).contains
                    (r.id, r.feed)) = false := by
                rw [Bool.eq_false_iff]
                intro hcon
                have hsub : (toDeleteKeys (s.sync_state.filter
                    (fun r => !(sel.contains (r.id, r.feed))))).Sublist
                    (toDeleteKeys s.sync_state) :=
                  toDeleteKeys_sublist (List.filter_sublist _)
                have := hsub.subset ((contains_iff _ _).mp hcon)
                rw [(contains_iff _ _).mpr this] at hk
                simp at hk
              rw [hk', hsk]
              simp
          rw [hgoal]

/-- Phase 2 in canonical form: for every chunk size, `_delete_from_sync_state`
removes exactly the rows whose key is tombstoned. -/
theorem delete_from_sync_state_eq (chunk : Nat) (s : State) :
    delete_from_sync_state chunk s = deleteFromSyncStateSpec s := by
  unfold delete_from_sync_state
  apply delete_from_sync_state_loop_eq
  have := List.length_filter_le (fun r => r.to_delete) s.sync_state
  omega

/-- `Search._update` in canonical form: the chunk size does not affect the
result of the two deletion phases. -/
theorem search_update_eq (chunk : Nat) (sh : String → String) (s : State) :
    search_update chunk sh s =
      clear_to_update (insert_into_search sh
        (deleteFromSyncStateSpec (deleteFromSearchSpec s))) := by
  unfold search_update
  rw [delete_from_search_eq, delete_from_sync_state_eq]

/-! ## Structural lemmas about the insertion phase and flag clearing -/

theorem mem_deriveEntryRows_key {sh : String → String} {e : EntryRecord}
    {u : UnionRow} (h : u ∈ deriveEntryRows sh e) :
    u.id = e.id ∧ u.feed = e.feed := by
  unfold deriveEntryRows from_summary from_content from_default at h
  rcases List.mem_append.mp h with h | h
  · rcases List.mem_append.mp h with h | h
    · split at h
      · rcases List.mem_singleton.mp h with rfl
        exact ⟨rfl, rfl⟩
      · simp at h
    · split at h
      · obtain ⟨ic, _, hu⟩ := List.mem_filterMap.mp h
        split at hu
        · rcases Option.some.injEq .. ▸ hu with rfl
          injection hu with hu'
          rw [← hu']
          exact ⟨rfl, rfl⟩
        · simp at hu
      · simp at h
  · split at h
    · rcases List.mem_singleton.mp h with rfl
      exact ⟨rfl, rfl⟩
    · simp at h

theorem mem_unionAll {sh : String → String} {s : State} {u : UnionRow}
    (h : u ∈ unionAll sh s) :
    ∃ r ∈ s.sync_state, r.to_update = true ∧ u.id = r.id ∧ u.feed = r.feed := by
  unfold unionAll toUpdateEntries at h
  obtain ⟨e, he, hu⟩ := List.mem_flatMap.mp (List.mem_dedup.mp h)
  obtain ⟨r, hr, he'⟩ := List.mem_flatMap.mp he
  obtain ⟨hrsync, hrup⟩ := List.mem_filter.mp hr
  obtain ⟨hesync, hekey⟩ := List.mem_filter.mp he'
  rw [decide_eq_true_eq] at hekey
  obtain ⟨hid, hfeed⟩ := mem_deriveEntryRows_key hu
  exact ⟨r, hrsync, hrup, by rw [hid, hekey.1], by rw [hfeed, hekey.2]⟩

theorem mem_insertedDocs {sh : String → String} {s : State} {d : SearchDocument}
    (h : d ∈ insertedDocs sh s) :
    ∃ r ∈ s.sync_state, r.to_update = true ∧ d.doc_id = r.id ∧ d.doc_feed = r.feed := by
  unfold insertedDocs at h
  obtain ⟨u, hu, hd⟩ := List.mem_flatMap.mp h
  obtain ⟨f, _, hdf⟩ := List.mem_map.mp hd
  obtain ⟨r, hr, hrup, hid, hfeed⟩ := mem_unionAll hu
  refine ⟨r, hr, hrup, ?_, ?_⟩ <;> rw [← hdf] <;> simpa

theorem mem_clear_to_update_sync {s : State} {r' : SyncStateRecord}
    (h : r' ∈ (clear_to_update s).sync_state) :
    ∃ r ∈ s.sync_state, r'.id = r.id ∧ r'.feed = r.feed ∧
      r'.to_update = false ∧ r'.to_delete = r.to_delete := by
  unfold clear_to_update at h
  obtain ⟨r, hr, hmap⟩ := List.mem_map.mp h
  refine ⟨r, hr, ?_⟩
  by_cases hup : r.to_update = true
  · rw [if_pos hup] at hmap
    rw [← hmap]
    exact ⟨rfl, rfl, rfl, rfl⟩
  · rw [if_neg hup] at hmap
    rw [Bool.not_eq_true] at hup
    rw [← hmap]
    exact ⟨rfl, rfl, hup, rfl⟩

theorem clear_to_update_entries_search (s : State) :
    (clear_to_update s).entries_search = s.entries_search := rfl


theorem map_eq_self_of {α : Type} (l : List α) (f : α → α)
    (h : ∀ a ∈ l, f a = a) : l.map f = l := by
  induction l with
  | nil => rfl
  | cons a t ih =>
      rw [List.map_cons, h a (List.mem_cons_self _ _),
        ih fun b hb => h b (List.mem_cons_of_mem _ hb)]

/-- After an update, the dirty set is empty: every tombstoned row was deleted
and every `to_update` flag was cleared. -/
theorem cleanSync_search_update (chunk : Nat) (sh : String → String) (s : State) :
    cleanSync (search_update chunk sh s) := by
  rw [search_update_eq]
  intro r' hr'
  obtain ⟨r, hr, _, _, hup, hdel⟩ := mem_clear_to_update_sync hr'
  refine ⟨hup, ?_⟩
  rw [hdel]
  have hr2 : r ∈ (deleteFromSyncStateSpec (deleteFromSearchSpec s)).sync_state := hr
  unfold deleteFromSyncStateSpec at hr2
  obtain ⟨hrsync, hkeep⟩ := List.mem_filter.mp hr2
  rw [Bool.eq_false_iff]
  intro hdel'
  have : ((toDeleteKeys (deleteFromSearchSpec s).sync_state).contains
      (r.id, r.feed)) = true :=
    (contains_iff _ _).mpr (mem_toDeleteKeys.mpr ⟨r, hrsync, hdel', rfl⟩)
  rw [this] at hkeep
  simp at hkeep

/-- On a state with an empty dirty set, every phase of `_update` is a no-op. -/
theorem search_update_of_cleanSync (chunk : Nat) (sh : String → String)
    (s : State) (h : cleanSync s) :
    deleteFromSearchSpec s = s ∧ deleteFromSyncStateSpec s = s ∧
      insertedDocs sh s = [] ∧ search_update chunk sh s = s := by
  have hnodirty : ∀ i f, dirtyKey s.sync_state i f = false := by
    intro i f
    rw [Bool.eq_false_iff]
    intro hcon
    obtain ⟨r, hr, hflag, _, _⟩ := dirtyKey_iff.mp hcon
    obtain ⟨h1, h2⟩ := h r hr
    rw [h1, h2] at hflag
    simp at hflag
  have h1 : deleteFromSearchSpec s = s := by
    unfold deleteFromSearchSpec
    rw [List.filter_eq_self.mpr fun d _ => by rw [hnodirty]; rfl]
  have hK : toDeleteKeys s.sync_state = [] := by
    unfold toDeleteKeys
    rw [List.filter_eq_nil_iff.mpr fun r hr => by rw [(h r hr).2]; simp]
    rfl
  have h2 : deleteFromSyncStateSpec s = s := by
    unfold deleteFromSyncStateSpec
    rw [List.filter_eq_self.mpr fun r _ => by rw [hK]; rfl]
  have hup : s.sync_state.filter (fun r => r.to_update) = [] :=
    List.filter_eq_nil_iff.mpr fun r hr => by rw [(h r hr).1]; simp
  have h3 : insertedDocs sh s = [] := by
    unfold insertedDocs unionAll toUpdateEntries
    rw [hup]
    rfl
  refine ⟨h1, h2, h3, ?_⟩
  rw [search_update_eq, h1, h2]
  have h4 : insert_into_search sh s = s := by
    unfold insert_into_search
    rw [h3, List.append_nil]
  rw [h4]
  unfold clear_to_update
  rw [map_eq_self_of _ _ fun r hr => by rw [if_neg (by rw [(h r hr).1]; simp)]]

theorem update_ok {bs4 : Bool} {chunk : Nat} {sh : String → String}
    {s s₁ : State} (h : update bs4 chunk sh s = .ok s₁) :
    s₁ = search_update chunk sh s ∧ bs4 = true ∧ s.search_enabled = true := by
  unfold update at h
  cases bs4 with
  | false => simp at h
  | true =>
    cases hse : s.search_enabled with
    | false => rw [hse] at h; simp at h
    | true =>
      rw [hse] at h
      simp at h
      exact ⟨h.symm, rfl, rfl⟩

theorem search_update_search_enabled (chunk : Nat) (sh : String → String)
    (s : State) :
    (search_update chunk sh s).search_enabled = s.search_enabled := by
  rw [search_update_eq]
  rfl

theorem deriveEntryRows_sanity_mixed :
    deriveEntryRows id
      ⟨"e", "f", some "t", some "sum",
        some [⟨some "c0", some "text/html"⟩, ⟨some "c1", some "application/pdf"⟩]⟩ =
    [⟨"e", "f", some ".summary", some "t", some "sum"⟩,
     ⟨"e", "f", some ".content[0].value", some "t", some "c0"⟩] := by
  decide

theorem deriveEntryRows_sanity_default :
    deriveEntryRows id ⟨"e", "f", some "t", none, none⟩ =
    [⟨"e", "f", none, some "t", none⟩] := by decide

theorem deriveEntryRows_sanity_empty :
    deriveEntryRows id
      ⟨"e", "f", some "t", none, some [⟨some "c0", some "application/pdf"⟩]⟩ = [] := by
  decide

/-! ## Claims C3, C5, C6 -/

/-- Claim C3: for every entry whose sync-state row has `to_delete` set before
`update()` is called, after a successful `update()` neither an index document
with that entry's key nor a sync-state row with that key remains, for every
chunk size. -/
theorem claim_C3 (bs4 : Bool) (chunk : Nat) (sh : String → String)
    (s s₁ : State) (hok : update bs4 chunk sh s = .ok s₁)
    (r : SyncStateRecord) (hr : r ∈ s.sync_state) (hdel : r.to_delete = true) :
    (∀ d ∈ s₁.entries_search, ¬(d.doc_id = r.id ∧ d.doc_feed = r.feed)) ∧
      (∀ r' ∈ s₁.sync_state, ¬(r'.id = r.id ∧ r'.feed = r.feed)) := by
  obtain ⟨rfl, -, -⟩ := update_ok hok
  have hKmem : ((toDeleteKeys s.sync_state).contains (r.id, r.feed)) = true :=
    (contains_iff _ _).mpr (mem_toDeleteKeys.mpr ⟨r, hr, hdel, rfl⟩)
  have hsync2 : (deleteFromSearchSpec s).sync_state = s.sync_state := rfl
  have hks : ∀ r' ∈ (deleteFromSyncStateSpec (deleteFromSearchSpec s)).sync_state,
      ¬(r'.id = r.id ∧ r'.feed = r.feed) := by
    rintro r' hr' ⟨hi, hf⟩
    unfold deleteFromSyncStateSpec at hr'
    obtain ⟨-, hkeep⟩ := List.mem_filter.mp hr'
    rw [hsync2, hi, hf, hKmem] at hkeep
    simp at hkeep
  rw [search_update_eq]
  constructor
  · rintro d hd ⟨hi, hf⟩
    rw [clear_to_update_entries_search] at hd
    unfold insert_into_search at hd
    rcases List.mem_append.mp hd with hd | hd
    · have hd2 : d ∈ (deleteFromSearchSpec s).entries_search := hd
      unfold deleteFromSearchSpec at hd2
      obtain ⟨-, hclean⟩ := List.mem_filter.mp hd2
      have hdk : dirtyKey s.sync_state d.doc_id d.doc_feed = true :=
        dirtyKey_iff.mpr ⟨r, hr, by rw [hdel]; exact Bool.or_true _, hi.symm, hf.symm⟩
      rw [hdk] at hclean
      simp at hclean
    · obtain ⟨r₁, hr₁, -, hdi, hdf⟩ := mem_insertedDocs hd
      exact hks r₁ hr₁ ⟨by rw [← hdi, hi], by rw [← hdf, hf]⟩
  · rintro r' hr' ⟨hi, hf⟩
    obtain ⟨r₀, hr₀, hi0, hf0, -, -⟩ := mem_clear_to_update_sync hr'
    exact hks r₀ hr₀ ⟨by rw [← hi0, hi], by rw [← hf0, hf]⟩

/-- Witness for C3 at a concrete tombstoned row. -/
theorem claim_C3_witness :
    (∀ d ∈ (search_update 1 (fun t => t) exC3State).entries_search,
        ¬(d.doc_id = "e1" ∧ d.doc_feed = "f1")) ∧
      (∀ r' ∈ (search_update 1 (fun t => t) exC3State).sync_state,
        ¬(r'.id = "e1" ∧ r'.feed = "f1")) :=
  claim_C3 true 1 (fun t => t) exC3State (search_update 1 (fun t => t) exC3State)
    rfl ⟨"e1", "f1", false, true⟩ (by decide) rfl

/-- Claim C5: running `update()` with `chunk_size = 1` and with
`chunk_size = 0` on the same state (same dirty set and primary-store
contents) produces identical outcomes: identical final index contents and
identical final sync-state contents. -/
theorem claim_C5 (bs4 : Bool) (sh : String → String) (s : State) :
    update bs4 1 sh s = update bs4 0 sh s := by
  unfold update
  rw [search_update_eq, search_update_eq]

/-- Claim C6: calling `update()` twice in a row with no intervening
primary-store writes performs no changes the second time: after a successful
`update()` the dirty set is empty, so on the second call phase 1 deletes no
documents, phase 2 deletes no sync-state rows, phase 3 derives zero rows, and
the second call returns the state unchanged (for any chunk size). -/
theorem claim_C6 (bs4 : Bool) (chunk chunk' : Nat) (sh sh' : String → String)
    (s s₁ : State) (h : update bs4 chunk sh s = .ok s₁) :
    update bs4 chunk' sh' s₁ = .ok s₁ ∧
      deleteFromSearchSpec s₁ = s₁ ∧
      deleteFromSyncStateSpec s₁ = s₁ ∧
      insertedDocs sh' s₁ = [] := by
  obtain ⟨rfl, rfl, hen⟩ := update_ok h
  obtain ⟨h1, h2, h3, h4⟩ := search_update_of_cleanSync chunk' sh' _
    (cleanSync_search_update chunk sh s)
  refine ⟨?_, h1, h2, h3⟩
  unfold update
  rw [search_update_search_enabled, hen]
  simp [h4]

/-- Witness for C6 at a concrete enabled state. -/
theorem claim_C6_witness :
    update true 0 (fun t => t) exCleanState = .ok exCleanState ∧
      deleteFromSearchSpec exCleanState = exCleanState ∧
      deleteFromSyncStateSpec exCleanState = exCleanState ∧
      insertedDocs (fun t => t) exCleanState = [] :=
  claim_C6 true 1 0 (fun t => t) (fun t => t) exCleanState exCleanState rfl

/-! ## Claims C7 and C8 -/

/-- Claim C7: calling `enable()` while search is already enabled is
idempotent — the `CREATE VIRTUAL TABLE` statement fails with the backend's
"table entries_search already exists" condition, which `enable` detects and
treats as success, returning without error and leaving the existing schema
(the whole state) in place. -/
theorem claim_C7 (s : State) (h : s.search_enabled = true) :
    enable s = .ok s := by
  unfold enable
  rw [h]
  rfl

/-- Witness for C7 at a concrete enabled state. -/
theorem claim_C7_witness : enable exCleanState = .ok exCleanState :=
  claim_C7 exCleanState rfl

/-- Claim C8: in every state in which the index table does not exist, both
`update()` and consuming the sequence returned by `search_entries()` raise
the distinct `SearchNotEnabledError` (converted from the backend's
"no such table" condition) — not a generic search error and not a silent
no-op.  (`bs4 = true`: the markup-stripping dependency is importable, else
`update()` fails even earlier, before touching the database.) -/
theorem claim_C8 (chunk : Nat) (sh : String → String) (s : State)
    (rows : List SearchRow) (before after : String)
    (last : Option (Int × String × String)) (h : s.search_enabled = false) :
    update true chunk sh s = .error .searchNotEnabled ∧
      search_entries s rows before after chunk last = .error .searchNotEnabled := by
  constructor
  · unfold update
    rw [h]
    rfl
  · unfold search_entries
    rw [h]
    rfl

/-- Witness for C8 at a concrete disabled state. -/
theorem claim_C8_witness :
    update true 256 (fun t => t) exDisabledState = .error .searchNotEnabled ∧
      search_entries exDisabledState [] ">" "<" 256 none =
        .error .searchNotEnabled :=
  claim_C8 256 (fun t => t) exDisabledState [] ">" "<" none rfl

/-! ## Injectivity of `Nat.repr`, hence of `contentPath` -/

theorem charVal_digitChar {d : Nat} (h : d < 10) :
    charVal (Nat.digitChar d) = d := by
  interval_cases d <;> rfl

theorem toDigitsCore_append :
    ∀ (fuel n : Nat) (ds : List Char),
      Nat.toDigitsCore 10 fuel n ds = Nat.toDigitsCore 10 fuel n [] ++ ds := by
  intro fuel
  induction fuel with
  | zero => intro n ds; rfl
  | succ fuel ih =>
    intro n ds
    show (if n / 10 = 0 then _ :: ds else Nat.toDigitsCore 10 fuel (n / 10) _) =
      (if n / 10 = 0 then _ :: [] else Nat.toDigitsCore 10 fuel (n / 10) _) ++ ds
    by_cases h : n / 10 = 0
    · rw [if_pos h, if_pos h]
      rfl
    · rw [if_neg h, if_neg h, ih (n / 10) (Nat.digitChar (n % 10) :: ds),
        ih (n / 10) (Nat.digitChar (n % 10) :: []), List.append_assoc]
      rfl

theorem toDigitsCore_fuel_irrel :
    ∀ (n f₁ f₂ : Nat), n < f₁ → n < f₂ →
      Nat.toDigitsCore 10 f₁ n [] = Nat.toDigitsCore 10 f₂ n [] := by
  intro n
  induction n using Nat.strong_induction_on with
  | _ n ih =>
    intro f₁ f₂ h₁ h₂
    obtain ⟨a, rfl⟩ : ∃ a, f₁ = a + 1 := ⟨f₁ - 1, by omega⟩
    obtain ⟨b, rfl⟩ : ∃ b, f₂ = b + 1 := ⟨f₂ - 1, by omega⟩
    show (if n / 10 = 0 then _ else Nat.toDigitsCore 10 a (n / 10) _) =
      (if n / 10 = 0 then _ else Nat.toDigitsCore 10 b (n / 10) _)
    by_cases h : n / 10 = 0
    · rw [if_pos h, if_pos h]
    · have hdm := Nat.div_add_mod n 10
      have hdlt : n / 10 < n := Nat.div_lt_self (by omega) (by omega)
      rw [if_neg h, if_neg h,
        toDigitsCore_append a (n / 10) (Nat.digitChar (n % 10) :: []),
        toDigitsCore_append b (n / 10) (Nat.digitChar (n % 10) :: []),
        ih (n / 10) hdlt a b (by omega) (by omega)]

theorem toDigits_recurrence (n : Nat) (h : ¬n / 10 = 0) :
    Nat.toDigits 10 n =
      Nat.toDigits 10 (n / 10) ++ [Nat.digitChar (n % 10)] := by
  have hdlt : n / 10 < n := Nat.div_lt_self (by omega) (by omega)
  show Nat.toDigitsCore 10 (n + 1) n [] = _
  rw [show Nat.toDigitsCore 10 (n + 1) n [] =
      (if n / 10 = 0 then Nat.digitChar (n % 10) :: []
        else Nat.toDigitsCore 10 n (n / 10) (Nat.digitChar (n % 10) :: [])) from rfl,
    if_neg h, toDigitsCore_append n (n / 10) (Nat.digitChar (n % 10) :: []),
    toDigitsCore_fuel_irrel (n / 10) n (n / 10 + 1) hdlt (by omega)]
  rfl

theorem digitsVal_append_singleton (l : List Char) (c : Char) :
    digitsVal (l ++ [c]) = digitsVal l * 10 + charVal c := by
  unfold digitsVal
  rw [List.foldl_append]
  rfl

theorem digitsVal_toDigits : ∀ n : Nat, digitsVal (Nat.toDigits 10 n) = n := by
  intro n
  induction n using Nat.strong_induction_on with
  | _ n ih =>
    have hdm := Nat.div_add_mod n 10
    have hmlt : n % 10 < 10 := Nat.mod_lt n (by omega)
    by_cases h : n / 10 = 0
    · have hn : n < 10 := by omega
      have hsingle : Nat.toDigits 10 n = [Nat.digitChar (n % 10)] := by
        show Nat.toDigitsCore 10 (n + 1) n [] = _
        rw [show Nat.toDigitsCore 10 (n + 1) n [] =
            (if n / 10 = 0 then Nat.digitChar (n % 10) :: []
              else Nat.toDigitsCore 10 n (n / 10) (Nat.digitChar (n % 10) :: []))
            from rfl, if_pos h]
      rw [hsingle]
      have : digitsVal [Nat.digitChar (n % 10)] = charVal (Nat.digitChar (n % 10)) := by
        unfold digitsVal
        simp [List.foldl]
      rw [this, charVal_digitChar hmlt]
      omega
    · have hdlt : n / 10 < n := Nat.div_lt_self (by omega) (by omega)
      rw [toDigits_recurrence n h, digitsVal_append_singleton,
        ih (n / 10) hdlt, charVal_digitChar hmlt]
      omega

theorem natRepr_inj {m n : Nat} (h : Nat.repr m = Nat.repr n) : m = n := by
  have hd : Nat.toDigits 10 m = Nat.toDigits 10 n := by
    have h2 := congrArg String.data h
    exact h2
  rw [← digitsVal_toDigits m, ← digitsVal_toDigits n, hd]

theorem contentPath_inj {i j : Nat} (h : contentPath i = contentPath j) :
    i = j := by
  unfold contentPath at h
  have h1 := congrArg String.data h
  rw [String.data_append, String.data_append, String.data_append,
    String.data_append] at h1
  have h2 : ".content[".data ++ (toString i).data =
      ".content[".data ++ (toString j).data :=
    List.append_cancel_right h1
  have h3 : (toString i).data = (toString j).data :=
    List.append_cancel_left h2
  exact natRepr_inj (String.ext h3)

theorem contentPath_ne_summary (i : Nat) : contentPath i ≠ ".summary" := by
  intro h
  have h1 := congrArg String.data h
  unfold contentPath at h1
  rw [String.data_append, String.data_append] at h1
  rw [show (".content[" : String).data =
      ['.', 'c', 'o', 'n', 't', 'e', 'n', 't', '['] from rfl,
    show (".summary" : String).data =
      ['.', 's', 'u', 'm', 'm', 'a', 'r', 'y'] from rfl] at h1
  simp only [List.cons_append, List.nil_append] at h1
  injection h1 with h2 h3
  injection h3 with h4 h5
  exact absurd h4 (by decide)

/-! ## Generic list lemmas for the insertion-phase analysis -/

/-- A filter whose predicate is constant on each block generated by a
`flatMap` can be exchanged with it. -/
theorem filter_flatMap_const {α β : Type} (l : List α) (g : α → List β)
    (p : β → Bool) (q : α → Bool) (h : ∀ a, ∀ x ∈ g a, p x = q a) :
    (l.flatMap g).filter p = (l.filter q).flatMap g := by
  induction l with
  | nil => rfl
  | cons a t ih =>
    rw [List.flatMap_cons, List.filter_append, ih]
    by_cases hq : q a = true
    · rw [List.filter_eq_self.mpr fun x hx => by rw [h a x hx, hq],
        List.filter_cons_of_pos hq, List.flatMap_cons]
    · rw [List.filter_eq_nil_iff.mpr fun x hx => by rw [h a x hx]; exact hq,
        List.filter_cons_of_neg hq, List.nil_append]

/-- In a list whose elements have pairwise-distinct keys, two members with
the same key are the same member. -/
theorem pairwise_key_eq {α κ : Type} (key : α → κ) {l : List α}
    (hpw : l.Pairwise fun x y => key x ≠ key y) {a b : α}
    (ha : a ∈ l) (hb : b ∈ l) (hk : key a = key b) : a = b := by
  by_contra hne
  have hsym : Symmetric fun x y => key x ≠ key y := by
    intro x y hxy h
    exact hxy h.symm
  exact hpw.forall hsym ha hb hne hk

/-- In a list with pairwise-distinct keys, filtering by the key of a member
yields exactly that member. -/
theorem filter_eq_singleton_of_key {α κ : Type} (key : α → κ) (p : α → Bool)
    (a : α) :
    ∀ (l : List α), (l.Pairwise fun x y => key x ≠ key y) → a ∈ l →
      (∀ b ∈ l, (p b = true ↔ key b = key a)) → l.filter p = [a] := by
  intro l
  induction l with
  | nil => intro _ ha; cases ha
  | cons x t ih =>
    intro hpw ha hp
    obtain ⟨hhead, htail⟩ := List.pairwise_cons.mp hpw
    rcases List.mem_cons.mp ha with rfl | hat
    · rw [List.filter_cons_of_pos ((hp a (List.mem_cons_self _ _)).mpr rfl)]
      rw [List.filter_eq_nil_iff.mpr fun b hb hpb =>
        hhead b hb ((hp b (List.mem_cons_of_mem _ hb)).mp hpb).symm]
    · rw [List.filter_cons_of_neg fun hpx =>
        hhead a hat ((hp x (List.mem_cons_self _ _)).mp hpx)]
      exact ih htail hat fun b hb => hp b (List.mem_cons_of_mem _ hb)

/-- A `flatMap` that produces `B` exactly on the unique member with a given
key, and `[]` elsewhere, produces `B`. -/
theorem flatMap_if_key {α κ β : Type} [DecidableEq κ] (key : α → κ) (a : α)
    (B : List β) :
    ∀ (l : List α), (l.Pairwise fun x y => key x ≠ key y) → a ∈ l →
      (l.flatMap fun x => if key x = key a then B else []) = B := by
  intro l
  induction l with
  | nil => intro _ ha; cases ha
  | cons x t ih =>
    intro hpw ha
    obtain ⟨hhead, htail⟩ := List.pairwise_cons.mp hpw
    rw [List.flatMap_cons]
    rcases List.mem_cons.mp ha with rfl | hat
    · rw [if_pos rfl]
      have hnil : (t.flatMap fun y => if key y = key a then B else []) = [] := by
        rw [List.flatMap_eq_nil_iff]
        intro y hy
        rw [if_neg fun h => hhead y hy h.symm]
      rw [hnil, List.append_nil]
    · rw [if_neg fun h => hhead a hat h, List.nil_append]
      exact ih htail hat

/-- `dedup` (the model of SQL `UNION`) commutes with `filter`. -/
theorem dedup_filter {α : Type} [DecidableEq α] (p : α → Bool) :
    ∀ (l : List α), (l.dedup).filter p = (l.filter p).dedup := by
  intro l
  induction l with
  | nil => rfl
  | cons a t ih =>
    by_cases hm : a ∈ t
    · rw [List.dedup_cons_of_mem hm]
      by_cases hp : p a = true
      · rw [List.filter_cons_of_pos hp,
          List.dedup_cons_of_mem (List.mem_filter.mpr ⟨hm, hp⟩), ih]
      · rw [List.filter_cons_of_neg hp, ih]
    · rw [List.dedup_cons_of_not_mem hm]
      by_cases hp : p a = true
      · rw [List.filter_cons_of_pos hp, List.filter_cons_of_pos hp,
          List.dedup_cons_of_not_mem fun hc => hm (List.mem_filter.mp hc).1, ih]
      · rw [List.filter_cons_of_neg hp, List.filter_cons_of_neg hp, ih]

/-! ## Shape of the per-entry derived rows -/

theorem mem_from_summary {sh : String → String} {e : EntryRecord} {u : UnionRow}
    (h : u ∈ from_summary sh e) :
    summaryPresent e = true ∧ u.content_path = some ".summary" := by
  unfold from_summary at h
  split at h
  · rcases List.mem_singleton.mp h with rfl
    constructor
    · assumption
    · rfl
  · cases h

theorem mem_from_content {sh : String → String} {e : EntryRecord} {u : UnionRow}
    (h : u ∈ from_content sh e) :
    ∃ i, u.content_path = some (contentPath i) := by
  unfold from_content at h
  split at h
  · obtain ⟨ic, _, hu⟩ := List.mem_filterMap.mp h
    split at hu
    · cases hu
      exact ⟨ic.1, rfl⟩
    · cases hu
  · cases h

theorem mem_from_default {sh : String → String} {e : EntryRecord} {u : UnionRow}
    (h : u ∈ from_default sh e) :
    u.content_path = none ∧ u.content_text = none := by
  unfold from_default at h
  split at h
  · rcases List.mem_singleton.mp h with rfl
    exact ⟨rfl, rfl⟩
  · cases h

/-- The rows derived for one entry are pairwise distinct: their content
locators differ (SQL `UNION` removes nothing here). -/
theorem deriveEntryRows_nodup (sh : String → String) (e : EntryRecord) :
    (deriveEntryRows sh e).Nodup := by
  unfold deriveEntryRows
  have hsum : (from_summary sh e).Nodup := by
    unfold from_summary
    split
    · exact List.nodup_singleton _
    · exact List.nodup_nil
  have hcontent : (from_content sh e).Nodup := by
    unfold from_content
    split
    · rw [List.Nodup, List.pairwise_filterMap]
      have henum : (e.content.getD []).enum.Pairwise fun a b => a.1 ≠ b.1 := by
        rw [← List.pairwise_map]
        exact List.nodup_enum_map_fst _
      apply henum.imp
      intro a b hab x hx y hy
      split at hx
      · split at hy
        · cases hx
          cases hy
          intro hxy
          apply hab
          have := congrArg UnionRow.content_path hxy
          simp only [Option.some.injEq] at this
          exact contentPath_inj this
        · cases hy
      · cases hx
    · exact List.nodup_nil
  have hdef : (from_default sh e).Nodup := by
    unfold from_default
    split
    · exact List.nodup_singleton _
    · exact List.nodup_nil
  have hd₁ : (from_summary sh e).Disjoint (from_content sh e) := by
    intro u hu hu'
    obtain ⟨-, hp⟩ := mem_from_summary hu
    obtain ⟨i, hp'⟩ := mem_from_content hu'
    rw [hp] at hp'
    exact contentPath_ne_summary i (Option.some.injEq .. ▸ hp').symm
  have hd₂ : ((from_summary sh e) ++ (from_content sh e)).Disjoint
      (from_default sh e) := by
    intro u hu hu'
    obtain ⟨hp', -⟩ := mem_from_default hu'
    rcases List.mem_append.mp hu with hu | hu
    · obtain ⟨-, hp⟩ := mem_from_summary hu
      rw [hp'] at hp
      cases hp
    · obtain ⟨i, hp⟩ := mem_from_content hu
      rw [hp'] at hp
      cases hp
  exact ((hsum.append hcontent hd₁).append hdef hd₂)

theorem flatMap_map_singleton {α β : Type} (l : List α) (g : α → β) :
    (l.flatMap fun a => [g a]) = l.map g := by
  induction l with
  | nil => rfl
  | cons a t ih => rw [List.flatMap_cons, List.map_cons, ih]; rfl

theorem insert_into_search_entries_search (sh : String → String) (s : State) :
    (insert_into_search sh s).entries_search =
      s.entries_search ++ insertedDocs sh s := rfl

/-- The heart of the insertion phase: under the SQL key constraints (the
primary keys of `entries`, `feeds` and `entries_search_sync_state`), an
entry whose sync row has `to_update` set (and is not tombstoned) has, after
`update()`, exactly the documents derived from it by the `union_all` CTE,
each joined with its (unique) feed row. -/
theorem update_docsForKey (chunk : Nat) (sh : String → String) (s : State)
    (hpwSync : s.sync_state.Pairwise fun x y => (x.id, x.feed) ≠ (y.id, y.feed))
    (hpwEnt : s.entries.Pairwise fun x y => (x.id, x.feed) ≠ (y.id, y.feed))
    (hpwFeeds : s.feeds.Pairwise fun x y => x.url ≠ y.url)
    (r : SyncStateRecord) (hr : r ∈ s.sync_state) (hrup : r.to_update = true)
    (hrdel : r.to_delete = false)
    (e : EntryRecord) (he : e ∈ s.entries) (hei : e.id = r.id)
    (hef : e.feed = r.feed)
    (f : FeedRecord) (hf : f ∈ s.feeds) (hfu : f.url = e.feed) :
    docsForKey (search_update chunk sh s) e.id e.feed =
      (deriveEntryRows sh e).map fun u => mkDoc sh u f := by
  rw [search_update_eq]
  unfold docsForKey
  rw [clear_to_update_entries_search, insert_into_search_entries_search,
    List.filter_append]
  have hpart1 : (deleteFromSyncStateSpec
      (deleteFromSearchSpec s)).entries_search.filter
        (fun d => decide (d.doc_id = e.id ∧ d.doc_feed = e.feed)) = [] := by
    apply List.filter_eq_nil_iff.mpr
    intro d hd hdk
    have hd2 : d ∈ (deleteFromSearchSpec s).entries_search := hd
    unfold deleteFromSearchSpec at hd2
    obtain ⟨-, hcl⟩ := List.mem_filter.mp hd2
    rw [decide_eq_true_eq] at hdk
    have hdirty : dirtyKey s.sync_state d.doc_id d.doc_feed = true :=
      dirtyKey_iff.mpr ⟨r, hr, by rw [hrup]; rfl,
        by rw [hdk.1, hei], by rw [hdk.2, hef]⟩
    rw [hdirty] at hcl
    simp at hcl
  rw [hpart1, List.nil_append]
  have hS3sync : (deleteFromSyncStateSpec (deleteFromSearchSpec s)).sync_state =
      s.sync_state.filter
        (fun x => !((toDeleteKeys s.sync_state).contains (x.id, x.feed))) := rfl
  have hrS3 : r ∈ (deleteFromSyncStateSpec (deleteFromSearchSpec s)).sync_state := by
    rw [hS3sync]
    apply List.mem_filter.mpr
    refine ⟨hr, ?_⟩
    have hcf : ((toDeleteKeys s.sync_state).contains (r.id, r.feed)) = false := by
      rw [Bool.eq_false_iff]
      intro hcon
      obtain ⟨r', hr', hdel', hk'⟩ := mem_toDeleteKeys.mp ((contains_iff _ _).mp hcon)
      have : r' = r := pairwise_key_eq (fun x => (x.id, x.feed)) hpwSync hr' hr hk'
      rw [this] at hdel'
      rw [hrdel] at hdel'
      cases hdel'
    rw [hcf]
    rfl
  have hS3pw : (deleteFromSyncStateSpec
      (deleteFromSearchSpec s)).sync_state.Pairwise
        (fun x y => (x.id, x.feed) ≠ (y.id, y.feed)) := by
    rw [hS3sync]
    exact List.Pairwise.sublist (List.filter_sublist _) hpwSync
  unfold insertedDocs
  rw [filter_flatMap_const _ _ _
    (fun u => decide (u.id = e.id ∧ u.feed = e.feed))
    (fun u x hx => by obtain ⟨f', -, rfl⟩ := List.mem_map.mp hx; rfl)]
  have hUnion : (unionAll sh
      (deleteFromSyncStateSpec (deleteFromSearchSpec s))).filter
        (fun u => decide (u.id = e.id ∧ u.feed = e.feed)) =
      deriveEntryRows sh e := by
    unfold unionAll
    rw [dedup_filter]
    have hconst2 : ∀ e', ∀ u ∈ deriveEntryRows sh e',
        decide (u.id = e.id ∧ u.feed = e.feed) =
          decide ((e'.id, e'.feed) = (e.id, e.feed)) := by
      intro e' u hu
      obtain ⟨h1, h2⟩ := mem_deriveEntryRows_key hu
      apply decide_eq_decide.mpr
      rw [h1, h2, Prod.mk.injEq]
    rw [filter_flatMap_const _ _ _
      (fun e' => decide ((e'.id, e'.feed) = (e.id, e.feed))) hconst2]
    have hTUfilter : ((toUpdateEntries
        (deleteFromSyncStateSpec (deleteFromSearchSpec s))).filter
          (fun e' => decide ((e'.id, e'.feed) = (e.id, e.feed)))) = [e] := by
      unfold toUpdateEntries
      rw [List.filter_flatMap]
      have hper : ∀ r' ∈ (deleteFromSyncStateSpec
          (deleteFromSearchSpec s)).sync_state.filter (fun x => x.to_update),
          (((deleteFromSyncStateSpec (deleteFromSearchSpec s)).entries.filter
            (fun e' => decide (e'.id = r'.id ∧ e'.feed = r'.feed))).filter
              (fun e' => decide ((e'.id, e'.feed) = (e.id, e.feed)))) =
          (if (r'.id, r'.feed) = (r.id, r.feed) then [e] else []) := by
        intro r' _
        rw [List.filter_filter]
        by_cases hkey : (r'.id, r'.feed) = (r.id, r.feed)
        · rw [if_pos hkey]
          simp only [Prod.mk.injEq] at hkey
          apply filter_eq_singleton_of_key (fun x => (x.id, x.feed)) _ e
            _ hpwEnt he
          intro b hb
          constructor
          · intro hband
            rw [Bool.and_eq_true, decide_eq_true_eq, decide_eq_true_eq] at hband
            exact hband.1
          · intro hbk
            have hbk' : b.id = e.id ∧ b.feed = e.feed := by
              simpa [Prod.mk.injEq] using hbk
            rw [Bool.and_eq_true, decide_eq_true_eq, decide_eq_true_eq]
            refine ⟨by simp [Prod.mk.injEq, hbk'.1, hbk'.2], ?_, ?_⟩
            · rw [hbk'.1, hei, ← hkey.1]
            · rw [hbk'.2, hef, ← hkey.2]
        · rw [if_neg hkey]
          apply List.filter_eq_nil_iff.mpr
          intro b hb hcontra
          rw [Bool.and_eq_true, decide_eq_true_eq, decide_eq_true_eq] at hcontra
          obtain ⟨hbe, hbr⟩ := hcontra
          have hbe' : b.id = e.id ∧ b.feed = e.feed := by
            simpa [Prod.mk.injEq] using hbe
          apply hkey
          rw [Prod.mk.injEq]
          constructor
          · rw [← hbr.1, hbe'.1, hei]
          · rw [← hbr.2, hbe'.2, hef]
      rw [List.flatMap_congr hper]
      apply flatMap_if_key (fun x => (x.id, x.feed)) r [e]
      · exact List.Pairwise.sublist (List.filter_sublist _) hS3pw
      · exact List.mem_filter.mpr ⟨hrS3, hrup⟩
    rw [hTUfilter, List.flatMap_cons, List.flatMap_nil, List.append_nil]
    exact List.dedup_eq_self.mpr (deriveEntryRows_nodup sh e)
  rw [hUnion]
  have hfeed : ∀ u ∈ deriveEntryRows sh e,
      ((deleteFromSyncStateSpec (deleteFromSearchSpec s)).feeds.filter
        (fun f' => decide (f'.url = u.feed))).map (mkDoc sh u) =
      [mkDoc sh u f] := by
    intro u hu
    have hko := mem_deriveEntryRows_key hu
    have hsingle : (deleteFromSyncStateSpec
        (deleteFromSearchSpec s)).feeds.filter
          (fun f' => decide (f'.url = u.feed)) = [f] := by
      apply filter_eq_singleton_of_key (fun x => x.url) _ f _ hpwFeeds hf
      intro b hb
      rw [decide_eq_true_eq, hko.2, ← hfu]
    rw [hsingle]
    rfl
  rw [List.flatMap_congr hfeed]
  exact flatMap_map_singleton _ _

/-! ## Counting and membership facts about the per-entry derivation -/

theorem filterMap_if_eq_map_filter {α β : Type} (c : α → Bool) (g : α → β) :
    ∀ l : List α, (l.filterMap fun a => if c a then some (g a) else none) =
      (l.filter c).map g := by
  intro l
  induction l with
  | nil => rfl
  | cons a t ih =>
    by_cases hc : c a = true
    · simp [List.filterMap_cons, List.filter_cons_of_pos hc, hc, ih]
    · simp [List.filterMap_cons, List.filter_cons_of_neg hc, hc, ih]

theorem length_filter_enum {α : Type} (p : α → Bool) (l : List α) :
    ((l.enum).filter fun ic => p ic.2).length = (l.filter p).length := by
  conv_rhs => rw [← List.enum_map_snd l]
  rw [List.filter_map, List.length_map]
  rfl

/-- The derived rows contain a `.summary`-locator row exactly when the
summary is non-empty. -/
theorem deriveEntryRows_summary_mem (sh : String → String) (e : EntryRecord) :
    (∃ u ∈ deriveEntryRows sh e, u.content_path = some ".summary") ↔
      summaryPresent e = true := by
  constructor
  · rintro ⟨u, hu, hp⟩
    unfold deriveEntryRows at hu
    rcases List.mem_append.mp hu with h | h
    · rcases List.mem_append.mp h with h | h
      · exact (mem_from_summary h).1
      · obtain ⟨i, hpi⟩ := mem_from_content h
        rw [hp] at hpi
        exact absurd (Option.some.injEq .. ▸ hpi).symm (contentPath_ne_summary i)
    · obtain ⟨hpn, -⟩ := mem_from_default h
      rw [hp] at hpn
      cases hpn
  · intro hs
    refine ⟨⟨e.id, e.feed, some ".summary", e.title.map sh, e.summary.map sh⟩,
      ?_, rfl⟩
    unfold deriveEntryRows
    apply List.mem_append.mpr
    left
    apply List.mem_append.mpr
    left
    unfold from_summary
    rw [if_pos hs]
    exact List.mem_singleton.mpr rfl

/-- The derived rows carry one content locator per selected text: one for a
non-empty summary plus one per eligible content variant. -/
theorem deriveEntryRows_locator_count (sh : String → String) (e : EntryRecord) :
    (deriveEntryRows sh e).countP (fun u => u.content_path.isSome) =
      (if summaryPresent e = true then 1 else 0) +
        (if contentUsable e = true
          then ((e.content.getD []).filter fun c => eligibleType c.type).length
          else 0) := by
  unfold deriveEntryRows
  rw [List.countP_append, List.countP_append]
  have hA : (from_summary sh e).countP (fun u => u.content_path.isSome) =
      if summaryPresent e = true then 1 else 0 := by
    unfold from_summary
    split
    · simp_all [List.countP_cons]
    · simp_all [List.countP_nil]
  have hB : (from_content sh e).countP (fun u => u.content_path.isSome) =
      if contentUsable e = true
        then ((e.content.getD []).filter fun c => eligibleType c.type).length
        else 0 := by
    unfold from_content
    split
    · have h1 : List.filterMap (fun ic : Nat × ContentItem =>
            if eligibleType ic.2.type then
              some (⟨e.id, e.feed, some (contentPath ic.1), e.title.map sh,
                ic.2.value.map sh⟩ : UnionRow)
            else none) (e.content.getD []).enum =
          ((e.content.getD []).enum.filter
            (fun ic : Nat × ContentItem => eligibleType ic.2.type)).map
            (fun ic : Nat × ContentItem =>
              (⟨e.id, e.feed, some (contentPath ic.1), e.title.map sh,
                ic.2.value.map sh⟩ : UnionRow)) :=
        filterMap_if_eq_map_filter
          (fun ic : Nat × ContentItem => eligibleType ic.2.type) _ _
      rw [h1, List.countP_map]
      have h2 : List.countP ((fun u : UnionRow => u.content_path.isSome) ∘
            (fun ic : Nat × ContentItem =>
              (⟨e.id, e.feed, some (contentPath ic.1), e.title.map sh,
                ic.2.value.map sh⟩ : UnionRow)))
          ((e.content.getD []).enum.filter
            (fun ic : Nat × ContentItem => eligibleType ic.2.type)) =
          ((e.content.getD []).enum.filter
            (fun ic : Nat × ContentItem => eligibleType ic.2.type)).length :=
        List.countP_eq_length.mpr fun a _ => rfl
      rw [h2]
      exact length_filter_enum (fun c : ContentItem => eligibleType c.type) _
    · rfl
  have hC : (from_default sh e).countP (fun u => u.content_path.isSome) = 0 := by
    unfold from_default
    split
    · rfl
    · rfl
  rw [hA, hB, hC]
  omega

/-- When the summary is empty and the content column unusable, the derived
rows are the single fallback row with no locator and no content text. -/
theorem deriveEntryRows_default (sh : String → String) (e : EntryRecord)
    (h1 : summaryPresent e = false) (h2 : contentUsable e = false) :
    deriveEntryRows sh e = [⟨e.id, e.feed, none, e.title.map sh, none⟩] := by
  unfold deriveEntryRows from_summary from_content from_default
  rw [if_neg (by rw [h1]; simp), if_neg (by rw [h2]; simp),
    if_pos (by rw [h1, h2]; rfl)]
  rfl

/-- When the summary is empty and the content list is non-empty but has no
eligible variant, no row at all is derived: the entry vanishes from the
index. -/
theorem deriveEntryRows_no_eligible (sh : String → String) (e : EntryRecord)
    (h1 : summaryPresent e = false) (h2 : contentUsable e = true)
    (h3 : (e.content.getD []).filter (fun c => eligibleType c.type) = []) :
    deriveEntryRows sh e = [] := by
  unfold deriveEntryRows from_summary from_content from_default
  rw [if_neg (by rw [h1]; simp), if_pos h2, if_neg (by rw [h2]; simp)]
  have h4 : List.filterMap (fun ic : Nat × ContentItem =>
        if eligibleType ic.2.type then
          some (⟨e.id, e.feed, some (contentPath ic.1), e.title.map sh,
            ic.2.value.map sh⟩ : UnionRow)
        else none) (e.content.getD []).enum =
      ((e.content.getD []).enum.filter
        (fun ic : Nat × ContentItem => eligibleType ic.2.type)).map
        (fun ic : Nat × ContentItem =>
          (⟨e.id, e.feed, some (contentPath ic.1), e.title.map sh,
            ic.2.value.map sh⟩ : UnionRow)) :=
    filterMap_if_eq_map_filter
      (fun ic : Nat × ContentItem => eligibleType ic.2.type) _ _
  rw [h4]
  have hz : ((e.content.getD []).enum.filter
      (fun ic : Nat × ContentItem => eligibleType ic.2.type)) = [] := by
    apply List.length_eq_zero.mp
    have h := length_filter_enum (fun c => eligibleType c.type) (e.content.getD [])
    exact h.trans (by rw [h3]; rfl)
  rw [hz]
  rfl

/-- A sync-state row that is not tombstoned survives both deletion phases. -/
theorem sync_row_survives_deletes (s : State)
    (hpwSync : s.sync_state.Pairwise fun x y => (x.id, x.feed) ≠ (y.id, y.feed))
    (r : SyncStateRecord) (hr : r ∈ s.sync_state) (hrdel : r.to_delete = false) :
    r ∈ (deleteFromSyncStateSpec (deleteFromSearchSpec s)).sync_state := by
  apply List.mem_filter.mpr
  refine ⟨hr, ?_⟩
  have hcf : ((toDeleteKeys s.sync_state).contains (r.id, r.feed)) = false := by
    rw [Bool.eq_false_iff]
    intro hcon
    obtain ⟨r', hr', hdel', hk'⟩ := mem_toDeleteKeys.mp ((contains_iff _ _).mp hcon)
    have heq : r' = r := pairwise_key_eq (fun x => (x.id, x.feed)) hpwSync hr' hr hk'
    rw [heq, hrdel] at hdel'
    cases hdel'
  rw [show (deleteFromSearchSpec s).sync_state = s.sync_state from rfl, hcf]
  rfl

/-! ## Claims C1 and C2 -/

/-- Counterexample to claim C1 as stated: for the entry `exC1Entry`, which has
both a non-empty summary and an HTML content variant, the specification's
selection rule (§3) picks only the summary, yet after `update()` the index
holds two documents for the entry, each with its own content text — not "at
most one selected content text". -/
theorem claim_C1_counterexample :
    specSelectedContent exC1Entry = some (".summary", some "S") ∧
      (∃ d ∈ docsForKey (search_update 0 (fun t => t) exC1State) "e1" "f1",
        d.content_path = some ".content[0].value" ∧ d.content = some "C") ∧
      ¬(((docsForKey (search_update 0 (fun t => t) exC1State) "e1" "f1").filter
          (fun d => d.content.isSome)).length ≤ 1) := by
  decide

/-- Claim C1 (amended): for every entry reindexed by `update()` (sync row
`to_update` and not tombstoned, entry and feed present, under the tables'
key constraints), the index stores one document per selected text rather
than at most one: the documents for the entry are exactly the rows of the
`union_all` derivation — a `.summary`-locator document exactly when the
summary is non-empty, plus one document per content variant whose type is
absent or HTML/XHTML/plain when the content array is valid and non-empty;
when neither summary nor usable content exists, a single document carrying
only title and feed text; and when the summary is empty and a non-empty
content list has no eligible variant, no document at all. -/
theorem claim_C1_amended (bs4 : Bool) (chunk : Nat) (sh : String → String)
    (s s₁ : State) (hok : update bs4 chunk sh s = .ok s₁)
    (hpwSync : s.sync_state.Pairwise fun x y => (x.id, x.feed) ≠ (y.id, y.feed))
    (hpwEnt : s.entries.Pairwise fun x y => (x.id, x.feed) ≠ (y.id, y.feed))
    (hpwFeeds : s.feeds.Pairwise fun x y => x.url ≠ y.url)
    (r : SyncStateRecord) (hr : r ∈ s.sync_state) (hrup : r.to_update = true)
    (hrdel : r.to_delete = false)
    (e : EntryRecord) (he : e ∈ s.entries) (hei : e.id = r.id)
    (hef : e.feed = r.feed)
    (f : FeedRecord) (hf : f ∈ s.feeds) (hfu : f.url = e.feed) :
    docsForKey s₁ e.id e.feed =
      ((deriveEntryRows sh e).map fun u => mkDoc sh u f) ∧
    ((∃ d ∈ docsForKey s₁ e.id e.feed, d.content_path = some ".summary") ↔
      summaryPresent e = true) ∧
    ((docsForKey s₁ e.id e.feed).countP (fun d => d.content_path.isSome) =
      (if summaryPresent e = true then 1 else 0) +
        (if contentUsable e = true
          then ((e.content.getD []).filter fun c => eligibleType c.type).length
          else 0)) ∧
    (summaryPresent e = false → contentUsable e = false →
      docsForKey s₁ e.id e.feed =
        [⟨e.title.map sh, none, (f.user_title.or f.title).map sh, e.id, e.feed,
          none, f.user_title.isSome⟩]) ∧
    (summaryPresent e = false → contentUsable e = true →
      (e.content.getD []).filter (fun c => eligibleType c.type) = [] →
      docsForKey s₁ e.id e.feed = []) := by
  obtain ⟨rfl, -, -⟩ := update_ok hok
  have hmain := update_docsForKey chunk sh s hpwSync hpwEnt hpwFeeds
    r hr hrup hrdel e he hei hef f hf hfu
  refine ⟨hmain, ?_, ?_, ?_, ?_⟩
  · rw [hmain]
    constructor
    · rintro ⟨d, hd, hp⟩
      obtain ⟨u, hu, rfl⟩ := List.mem_map.mp hd
      exact (deriveEntryRows_summary_mem sh e).mp ⟨u, hu, hp⟩
    · intro hs
      obtain ⟨u, hu, hp⟩ := (deriveEntryRows_summary_mem sh e).mpr hs
      exact ⟨mkDoc sh u f, List.mem_map_of_mem _ hu, hp⟩
  · rw [hmain, List.countP_map]
    exact deriveEntryRows_locator_count sh e
  · intro h1 h2
    rw [hmain, deriveEntryRows_default sh e h1 h2]
    rfl
  · intro h1 h2 h3
    rw [hmain, deriveEntryRows_no_eligible sh e h1 h2 h3]
    rfl

/-- Witness for the amended C1 at the concrete state `exC1State`. -/
theorem claim_C1_amended_witness :
    docsForKey (search_update 1 (fun t => t) exC1State) exC1Entry.id
        exC1Entry.feed =
      ((deriveEntryRows (fun t => t) exC1Entry).map
        fun u => mkDoc (fun t => t) u exFeed) ∧
    ((∃ d ∈ docsForKey (search_update 1 (fun t => t) exC1State) exC1Entry.id
        exC1Entry.feed, d.content_path = some ".summary") ↔
      summaryPresent exC1Entry = true) ∧
    ((docsForKey (search_update 1 (fun t => t) exC1State) exC1Entry.id
        exC1Entry.feed).countP (fun d => d.content_path.isSome) =
      (if summaryPresent exC1Entry = true then 1 else 0) +
        (if contentUsable exC1Entry = true
          then ((exC1Entry.content.getD []).filter
            fun c => eligibleType c.type).length
          else 0)) ∧
    (summaryPresent exC1Entry = false → contentUsable exC1Entry = false →
      docsForKey (search_update 1 (fun t => t) exC1State) exC1Entry.id
          exC1Entry.feed =
        [⟨exC1Entry.title.map (fun t => t), none,
          (exFeed.user_title.or exFeed.title).map (fun t => t), exC1Entry.id,
          exC1Entry.feed, none, exFeed.user_title.isSome⟩]) ∧
    (summaryPresent exC1Entry = false → contentUsable exC1Entry = true →
      (exC1Entry.content.getD []).filter (fun c => eligibleType c.type) = [] →
      docsForKey (search_update 1 (fun t => t) exC1State) exC1Entry.id
        exC1Entry.feed = []) :=
  claim_C1_amended true 1 (fun t => t) exC1State
    (search_update 1 (fun t => t) exC1State) rfl
    (by decide) (by decide) (by decide)
    ⟨"e1", "f1", true, false⟩ (by decide) rfl rfl
    exC1Entry (by decide) rfl rfl
    exFeed (by decide) rfl

/-- Counterexample to claim C2 as stated: `exC2Entry` has `to_update` set and
still exists in the primary store, but after `update()` it is not present in
the index at all — it has no summary and its only content variant has an
ineligible type, so no document is derived (whereas the §3 rule predicts a
document carrying title and feed text). -/
theorem claim_C2_counterexample :
    ((⟨"e2", "f1", true, false⟩ : SyncStateRecord) ∈ exC2State.sync_state ∧
      exC2Entry ∈ exC2State.entries) ∧
    docsForKey (search_update 0 (fun t => t) exC2State) "e2" "f1" = [] ∧
    specSelectedContent exC2Entry = none := by
  decide

/-- Claim C2 (amended): for every entry whose sync row has `to_update` set
(and not `to_delete`) before a successful `update()` and which still exists
in the primary store (with its feed, under the tables' key constraints):
afterwards the entry is present in the index if and only if its derivation
is non-empty (a non-empty summary, an eligible content variant, or neither
summary nor usable content); its documents are exactly the derived ones; and
its sync row remains with `to_update` cleared. -/
theorem claim_C2_amended (bs4 : Bool) (chunk : Nat) (sh : String → String)
    (s s₁ : State) (hok : update bs4 chunk sh s = .ok s₁)
    (hpwSync : s.sync_state.Pairwise fun x y => (x.id, x.feed) ≠ (y.id, y.feed))
    (hpwEnt : s.entries.Pairwise fun x y => (x.id, x.feed) ≠ (y.id, y.feed))
    (hpwFeeds : s.feeds.Pairwise fun x y => x.url ≠ y.url)
    (r : SyncStateRecord) (hr : r ∈ s.sync_state) (hrup : r.to_update = true)
    (hrdel : r.to_delete = false)
    (e : EntryRecord) (he : e ∈ s.entries) (hei : e.id = r.id)
    (hef : e.feed = r.feed)
    (f : FeedRecord) (hf : f ∈ s.feeds) (hfu : f.url = e.feed) :
    ((∃ d ∈ s₁.entries_search, d.doc_id = e.id ∧ d.doc_feed = e.feed) ↔
      deriveEntryRows sh e ≠ []) ∧
    docsForKey s₁ e.id e.feed =
      ((deriveEntryRows sh e).map fun u => mkDoc sh u f) ∧
    (∃ r' ∈ s₁.sync_state, r'.id = r.id ∧ r'.feed = r.feed ∧
      r'.to_update = false ∧ r'.to_delete = false) := by
  obtain ⟨rfl, -, -⟩ := update_ok hok
  have hmain := update_docsForKey chunk sh s hpwSync hpwEnt hpwFeeds
    r hr hrup hrdel e he hei hef f hf hfu
  refine ⟨?_, hmain, ?_⟩
  · have hiff : (∃ d ∈ (search_update chunk sh s).entries_search,
        d.doc_id = e.id ∧ d.doc_feed = e.feed) ↔
        docsForKey (search_update chunk sh s) e.id e.feed ≠ [] := by
      unfold docsForKey
      constructor
      · rintro ⟨d, hd, hk⟩ hnil
        rw [List.filter_eq_nil_iff] at hnil
        exact hnil d hd (by rw [decide_eq_true_eq]; exact hk)
      · intro hne
        match hm : (search_update chunk sh s).entries_search.filter
            (fun d => decide (d.doc_id = e.id ∧ d.doc_feed = e.feed)) with
        | [] => exact absurd hm hne
        | d :: t =>
          have hd : d ∈ (search_update chunk sh s).entries_search.filter
              (fun d => decide (d.doc_id = e.id ∧ d.doc_feed = e.feed)) := by
            rw [hm]
            exact List.mem_cons_self _ _
          obtain ⟨hmem, hk⟩ := List.mem_filter.mp hd
          rw [decide_eq_true_eq] at hk
          exact ⟨d, hmem, hk⟩
    rw [hiff, hmain]
    constructor
    · intro hne hnil
      rw [hnil] at hne
      exact hne rfl
    · intro hne hnil
      rw [List.map_eq_nil_iff] at hnil
      exact hne hnil
  · rw [search_update_eq]
    refine ⟨{ r with to_update := false }, ?_, rfl, rfl, rfl, hrdel⟩
    apply List.mem_map.mpr
    refine ⟨r, ?_, ?_⟩
    · exact sync_row_survives_deletes s hpwSync r hr hrdel
    · rw [if_pos hrup]

/-- Witness for the amended C2 at the concrete state `exC2State`. -/
theorem claim_C2_amended_witness :
    ((∃ d ∈ (search_update 1 (fun t => t) exC2State).entries_search,
        d.doc_id = exC2Entry.id ∧ d.doc_feed = exC2Entry.feed) ↔
      deriveEntryRows (fun t => t) exC2Entry ≠ []) ∧
    docsForKey (search_update 1 (fun t => t) exC2State) exC2Entry.id
        exC2Entry.feed =
      ((deriveEntryRows (fun t => t) exC2Entry).map
        fun u => mkDoc (fun t => t) u exFeed) ∧
    (∃ r' ∈ (search_update 1 (fun t => t) exC2State).sync_state,
      r'.id = "e2" ∧ r'.feed = "f1" ∧
      r'.to_update = false ∧ r'.to_delete = false) :=
  claim_C2_amended true 1 (fun t => t) exC2State
    (search_update 1 (fun t => t) exC2State) rfl
    (by decide) (by decide) (by decide)
    ⟨"e2", "f1", true, false⟩ (by decide) rfl rfl
    exC2Entry (by decide) rfl rfl
    exFeed (by decide) rfl

/-! ## The key tuple is a strict total order; query results are strictly
sorted by it -/

theorem keyLt_trans {a b c : Int × String × String}
    (h1 : keyLt a b) (h2 : keyLt b c) : keyLt a c := by
  unfold keyLt at h1 h2 ⊢
  rcases h1 with h1 | ⟨e1, h1⟩ <;> rcases h2 with h2 | ⟨e2, h2⟩
  · exact Or.inl (lt_trans h1 h2)
  · exact Or.inl (e2 ▸ h1)
  · exact Or.inl (e1 ▸ h2)
  · refine Or.inr ⟨e1.trans e2, ?_⟩
    rcases h1 with h1 | ⟨f1, h1⟩ <;> rcases h2 with h2 | ⟨f2, h2⟩
    · exact Or.inl (lt_trans h1 h2)
    · exact Or.inl (f2 ▸ h1)
    · exact Or.inl (f1 ▸ h2)
    · exact Or.inr ⟨f1.trans f2, lt_trans h1 h2⟩

theorem keyLt_irrefl (a : Int × String × String) : ¬keyLt a a := by
  unfold keyLt
  rintro (h | ⟨-, h | ⟨-, h⟩⟩) <;> exact lt_irrefl _ h

theorem keyLt_asymm {a b : Int × String × String}
    (h : keyLt a b) : ¬keyLt b a :=
  fun h' => keyLt_irrefl a (keyLt_trans h h')

theorem keyLt_trichotomy (a b : Int × String × String) :
    keyLt a b ∨ a = b ∨ keyLt b a := by
  unfold keyLt
  rcases lt_trichotomy a.1 b.1 with h | h | h
  · exact Or.inl (Or.inl h)
  · rcases lt_trichotomy a.2.1 b.2.1 with h2 | h2 | h2
    · exact Or.inl (Or.inr ⟨h, Or.inl h2⟩)
    · rcases lt_trichotomy a.2.2 b.2.2 with h3 | h3 | h3
      · exact Or.inl (Or.inr ⟨h, Or.inr ⟨h2, h3⟩⟩)
      · exact Or.inr (Or.inl (Prod.ext_iff.mpr ⟨h, Prod.ext_iff.mpr ⟨h2, h3⟩⟩))
      · exact Or.inr (Or.inr (Or.inr ⟨h.symm, Or.inr ⟨h2.symm, h3⟩⟩))
    · exact Or.inr (Or.inr (Or.inr ⟨h.symm, Or.inl h2⟩))
  · exact Or.inr (Or.inr (Or.inl h))

instance : IsTrans GroupedRow rowLe := by
  constructor
  intro a b c h1 h2
  unfold rowLe keyLe at h1 h2 ⊢
  rcases h1 with h1 | h1 <;> rcases h2 with h2 | h2
  · exact Or.inl (keyLt_trans h1 h2)
  · exact Or.inl (h2 ▸ h1)
  · exact Or.inl (h1 ▸ h2)
  · exact Or.inr (h1.trans h2)

instance : IsTotal GroupedRow rowLe := by
  constructor
  intro a b
  unfold rowLe keyLe
  rcases keyLt_trichotomy (rowKey a) (rowKey b) with h | h | h
  · exact Or.inl (Or.inl h)
  · exact Or.inl (Or.inr h)
  · exact Or.inr (Or.inl h)

theorem groupFor_key {rows : List SearchRow} {k : String × String}
    {g : GroupedRow} (h : groupFor rows k = some g) :
    (g.entry_id, g.feed_url) = k := by
  unfold groupFor at h
  split at h
  · cases h
  · cases h
    rfl

/-- The groups have pairwise-distinct entry keys. -/
theorem queryGroups_pairwise_ne (rows : List SearchRow) :
    (queryGroups rows).Pairwise
      fun a b => (a.entry_id, a.feed_url) ≠ (b.entry_id, b.feed_url) := by
  unfold queryGroups
  rw [List.pairwise_filterMap]
  have hnd : ((rows.map fun r => (r.doc_id, r.doc_feed)).dedup).Pairwise
      (fun a b => a ≠ b) := List.nodup_dedup _
  apply hnd.imp
  intro k k' hkk g hg g' hg'
  rw [Option.mem_def] at hg hg'
  intro hcon
  apply hkk
  rw [← groupFor_key hg, ← groupFor_key hg', hcon]

/-- The ordered query result is strictly sorted by the pagination key. -/
theorem queryResults_pairwise_keyLt (rows : List SearchRow) :
    (queryResults rows).Pairwise
      fun a b => keyLt (rowKey a) (rowKey b) := by
  have hsorted : (queryResults rows).Pairwise rowLe :=
    List.sorted_insertionSort rowLe (queryGroups rows)
  have hperm := List.perm_insertionSort rowLe (queryGroups rows)
  have hne : (queryResults rows).Pairwise
      (fun a b => (a.entry_id, a.feed_url) ≠ (b.entry_id, b.feed_url)) := by
    apply (List.Perm.pairwise_iff ?_ hperm).mpr (queryGroups_pairwise_ne rows)
    intro x y hxy h
    exact hxy h.symm
  apply (hsorted.and hne).imp
  intro a b hab
  rcases hab.1 with h | h
  · exact h
  · exfalso
    apply hab.2
    have h1 := congrArg (fun k : Int × String × String => k.2.2) h
    have h2 := congrArg (fun k : Int × String × String => k.2.1) h
    simp only [rowKey] at h1 h2
    rw [Prod.mk.injEq]
    exact ⟨h1, h2⟩

/-! ## Keyset pagination is exhaustive, duplicate-free and order-preserving -/

theorem filter_filter_of_imp {α : Type} (l : List α) (p q : α → Bool)
    (h : ∀ x ∈ l, p x = true → q x = true) :
    (l.filter q).filter p = l.filter p := by
  rw [List.filter_filter]
  apply List.filter_congr
  intro x hx
  cases hpx : p x
  · rw [Bool.false_and]
  · rw [h x hx hpx, Bool.and_true]

/-- In a strictly sorted list, the rows after the last row of `take n` are
exactly `drop n`. -/
theorem filter_gt_getLast_drop :
    ∀ (l : List GroupedRow),
      (l.Pairwise fun a b => keyLt (rowKey a) (rowKey b)) →
      ∀ (n : Nat) (g : GroupedRow), (l.take n).getLast? = some g →
        l.filter (fun x => decide (keyLt (rowKey g) (rowKey x))) = l.drop n := by
  intro l
  induction l with
  | nil =>
    intro _ n g hg
    rw [List.take_nil] at hg
    cases hg
  | cons a t ih =>
    intro hpw n g hg
    obtain ⟨hhead, htail⟩ := List.pairwise_cons.mp hpw
    obtain ⟨m, rfl⟩ : ∃ m, n = m + 1 := by
      cases n with
      | zero => rw [List.take_zero] at hg; cases hg
      | succ m => exact ⟨m, rfl⟩
    rw [List.take_succ_cons] at hg
    rw [List.drop_succ_cons]
    cases htm : t.take m with
    | nil =>
      rw [htm] at hg
      have hga : g = a := by
        cases hg
        rfl
      have hdrop : t.drop m = t := by
        rcases List.take_eq_nil_iff.mp htm with h | h
        · rw [h, List.drop_zero]
        · rw [h]
          rw [List.drop_nil]
      rw [hdrop, hga]
      rw [List.filter_cons_of_neg (by
        rw [decide_eq_true_eq]
        exact keyLt_irrefl _)]
      apply List.filter_eq_self.mpr
      intro x hx
      rw [decide_eq_true_eq]
      exact hhead x hx
    | cons b t' =>
      have hgm : (t.take m).getLast? = some g := by
        rw [htm] at hg ⊢
        rw [List.getLast?_cons_cons] at hg
        exact hg
      have hgt : g ∈ t := List.take_subset m t (List.mem_of_mem_getLast? hgm)
      rw [List.filter_cons_of_neg (by
        rw [decide_eq_true_eq]
        exact keyLt_asymm (hhead g hgt))]
      exact ih htail m g hgm

theorem remainingRows_pairwise {base : List GroupedRow}
    (hpw : base.Pairwise fun a b => keyLt (rowKey a) (rowKey b))
    (last : Option (Int × String × String)) :
    (remainingRows base last).Pairwise
      fun a b => keyLt (rowKey a) (rowKey b) := by
  cases last with
  | none => exact hpw
  | some k => exact hpw.filter _

/-- Cursor iteration over a strictly sorted base reproduces exactly the rows
after the cursor, given at least one row of fuel per remaining row. -/
theorem paginateFrom_eq (base : List GroupedRow)
    (hpw : base.Pairwise fun a b => keyLt (rowKey a) (rowKey b))
    (chunk : Nat) (hc : 1 ≤ chunk) :
    ∀ (fuel : Nat) (last : Option (Int × String × String)),
      (remainingRows base last).length ≤ fuel →
      paginateFrom base chunk last fuel = remainingRows base last := by
  intro fuel
  induction fuel with
  | zero =>
    intro last h
    rw [paginateFrom]
    have hrem : remainingRows base last = [] :=
      List.length_eq_zero.mp (by omega)
    rw [hrem]
  | succ fuel ih =>
    intro last hlen
    rw [paginateFrom]
    cases hgl : (searchPage base chunk last).getLast? with
    | none =>
      have hpnil : searchPage base chunk last = [] :=
        List.getLast?_eq_none_iff.mp hgl
      unfold searchPage at hpnil
      have hrem : remainingRows base last = [] := by
        rcases List.take_eq_nil_iff.mp hpnil with h | h
        · omega
        · exact h
      rw [hrem]
    | some g =>
      show searchPage base chunk last ++
        paginateFrom base chunk (some (rowKey g)) fuel = remainingRows base last
      have hg_mem_p : g ∈ searchPage base chunk last :=
        List.mem_of_mem_getLast? hgl
      have hg_mem_rem : g ∈ remainingRows base last :=
        List.take_subset chunk _ hg_mem_p
      have hrem_pw := remainingRows_pairwise hpw last
      have hdrop : remainingRows base (some (rowKey g)) =
          (remainingRows base last).drop chunk := by
        cases last with
        | none => exact filter_gt_getLast_drop base hpw chunk g hgl
        | some k0 =>
          have hB := filter_gt_getLast_drop (remainingRows base (some k0))
            hrem_pw chunk g hgl
          have hk0g : keyLt k0 (rowKey g) := by
            have := (List.mem_filter.mp hg_mem_rem).2
            rw [decide_eq_true_eq] at this
            exact this
          have himp : ∀ x ∈ base,
              decide (keyLt (rowKey g) (rowKey x)) = true →
                decide (keyLt k0 (rowKey x)) = true := by
            intro x _ hgx
            rw [decide_eq_true_eq] at hgx ⊢
            exact keyLt_trans hk0g hgx
          show base.filter _ = _
          rw [← filter_filter_of_imp base
            (fun x => decide (keyLt (rowKey g) (rowKey x)))
            (fun x => decide (keyLt k0 (rowKey x))) himp]
          exact hB
      have hlen' : (remainingRows base (some (rowKey g))).length ≤ fuel := by
        rw [hdrop, List.length_drop]
        have hrlen := List.length_pos_of_mem hg_mem_rem
        omega
      rw [ih (some (rowKey g)) hlen', hdrop]
      exact List.take_append_drop chunk _

/-! ## Claim C4 -/

/-- Claim C4: for a fixed index and fixed query/filters (a fixed list of
matching rows), and any page chunk size of at least 1, iterating
`search_entries` page by page — passing the key of the last consumed row as
the cursor of each next call — yields exactly the rows of a single unbounded
call with no cursor, each exactly once and in the same order; that order is
the strict total order on the key tuple (rank, feed url, entry id). -/
theorem claim_C4 (rows : List SearchRow) (chunk : Nat) (hc : 1 ≤ chunk) :
    paginateAll (queryResults rows) chunk = queryResults rows ∧
    searchPage (queryResults rows) (queryResults rows).length none =
      queryResults rows ∧
    (queryResults rows).Pairwise
      (fun a b => keyLt (rowKey a) (rowKey b)) := by
  refine ⟨?_, ?_, queryResults_pairwise_keyLt rows⟩
  · unfold paginateAll
    exact paginateFrom_eq (queryResults rows)
      (queryResults_pairwise_keyLt rows) chunk hc _ none (Nat.le_succ _)
  · unfold searchPage remainingRows
    exact List.take_length _

/-- Witness for C4 at two concrete matching rows and page size 1. -/
theorem claim_C4_witness :
    paginateAll (queryResults exRows) 1 = queryResults exRows ∧
    searchPage (queryResults exRows) (queryResults exRows).length none =
      queryResults exRows ∧
    (queryResults exRows).Pairwise
      (fun a b => keyLt (rowKey a) (rowKey b)) :=
  claim_C4 exRows 1 (by decide)

/-! ## Claim C10 -/

theorem content_keys_eq :
    ∀ (l : List ContentJson), (∀ c ∈ l, c.path ≠ some "") →
      ((l.filter fun c => truthyStr c.path).map fun c => c.path.getD "") =
        l.filterMap fun c => c.path := by
  intro l
  induction l with
  | nil => intro _; rfl
  | cons c t ih =>
    intro h
    have hc := h c (List.mem_cons_self _ _)
    have ht := fun b hb => h b (List.mem_cons_of_mem _ hb)
    cases hp : c.path with
    | none =>
      rw [List.filter_cons_of_neg (by rw [hp]; intro hcon; cases hcon),
        List.filterMap_cons, hp]
      exact ih ht
    | some sp =>
      have hsp : sp ≠ "" := by
        intro hcon
        apply hc
        rw [hp, hcon]
      rw [List.filter_cons_of_pos (by rw [hp]; exact decide_eq_true hsp),
        List.filterMap_cons, hp, List.map_cons, hp]
      rw [ih ht]
      rfl

/-- Claim C10: for every result built by `value_factory` from a grouped row
(whose content locators, when present, are non-empty — true of every locator
the indexer writes): the metadata mapping contains `.title` exactly when the
indexed title snippet is non-empty (truthy); it contains exactly one of
`.feed.title` / `.feed.user_title` — the latter exactly when the feed title
is the user override — and only when the feed snippet is non-empty; and the
content mapping has exactly the non-null content locators of the grouped
rows, in group order — a group with no locators yields an empty content
mapping. -/
theorem claim_C10 (before after : String) (g : GroupedRow)
    (hpaths : ∀ c ∈ g.content, c.path ≠ some "") :
    ((".title" ∈ (value_factory before after g).metadata.map Prod.fst) ↔
      truthyStr g.title = true) ∧
    ((".feed.title" ∈ (value_factory before after g).metadata.map Prod.fst) ↔
      (truthyStr g.feed = true ∧ g.is_feed_user_title = false)) ∧
    ((".feed.user_title" ∈
        (value_factory before after g).metadata.map Prod.fst) ↔
      (truthyStr g.feed = true ∧ g.is_feed_user_title = true)) ∧
    ((value_factory before after g).content.map Prod.fst =
      g.content.filterMap fun c => c.path) ∧
    ((∀ c ∈ g.content, c.path = none) →
      (value_factory before after g).content = []) := by
  refine ⟨?_, ?_, ?_, ?_, ?_⟩
  · cases ht : truthyStr g.title <;> cases hf : truthyStr g.feed <;>
      cases hu : g.is_feed_user_title <;>
      simp [value_factory, ht, hf, hu]
  · cases ht : truthyStr g.title <;> cases hf : truthyStr g.feed <;>
      cases hu : g.is_feed_user_title <;>
      simp [value_factory, ht, hf, hu]
  · cases ht : truthyStr g.title <;> cases hf : truthyStr g.feed <;>
      cases hu : g.is_feed_user_title <;>
      simp [value_factory, ht, hf, hu]
  · show ((g.content.filter fun c => truthyStr c.path).map _).map Prod.fst = _
    rw [List.map_map]
    exact content_keys_eq g.content hpaths
  · intro hall
    show ((g.content.filter fun c => truthyStr c.path).map _) = []
    rw [List.filter_eq_nil_iff.mpr fun c hc => by
      rw [hall c hc]
      intro hcon
      cases hcon]
    rfl

/-- Witness for C10 at a concrete grouped row. -/
theorem claim_C10_witness :
    ((".title" ∈ (value_factory ">" "<" exGrouped).metadata.map Prod.fst) ↔
      truthyStr exGrouped.title = true) ∧
    ((".feed.title" ∈ (value_factory ">" "<" exGrouped).metadata.map Prod.fst) ↔
      (truthyStr exGrouped.feed = true ∧
        exGrouped.is_feed_user_title = false)) ∧
    ((".feed.user_title" ∈
        (value_factory ">" "<" exGrouped).metadata.map Prod.fst) ↔
      (truthyStr exGrouped.feed = true ∧
        exGrouped.is_feed_user_title = true)) ∧
    ((value_factory ">" "<" exGrouped).content.map Prod.fst =
      exGrouped.content.filterMap fun c => c.path) ∧
    ((∀ c ∈ exGrouped.content, c.path = none) →
      (value_factory ">" "<" exGrouped).content = []) :=
  claim_C10 ">" "<" exGrouped (by decide)

/-! ## Claim C9: the sync-state invariant -/

theorem pairwise_key_map {α κ : Type} (key : α → κ) (f : α → α)
    (hf : ∀ a, key (f a) = key a) {l : List α}
    (h : l.Pairwise fun x y => key x ≠ key y) :
    (l.map f).Pairwise fun x y => key x ≠ key y := by
  rw [List.pairwise_map]
  apply h.imp
  intro a b hab
  rw [hf a, hf b]
  exact hab

/-- Every reachable state satisfies the sync-state invariant. -/
theorem reachable_syncInv : ∀ s : State, Reachable s → SyncInv s := by
  intro s h
  induction h with
  | enable s₀ hwf =>
    refine ⟨?_, ?_, hwf.1⟩
    · intro e he
      exact ⟨⟨e.id, e.feed, true, false⟩, List.mem_map_of_mem _ he,
        rfl, rfl, rfl⟩
    · show (backfillSyncState s₀.entries).Pairwise _
      unfold backfillSyncState
      rw [List.pairwise_map]
      exact hwf.1
  | insertEntry s e hre ih =>
    obtain ⟨ih1, ih2, ih3⟩ := ih
    unfold insertEntryOp
    by_cases hguard :
        ((s.entries.any fun x => decide (x.id = e.id ∧ x.feed = e.feed)) ||
          (s.sync_state.any fun r => decide (r.id = e.id ∧ r.feed = e.feed)) ||
          !(s.feeds.any fun x => decide (x.url = e.feed))) = true
    · rw [if_pos hguard]
      exact ⟨ih1, ih2, ih3⟩
    · rw [if_neg hguard]
      have ha : ∀ x ∈ s.entries, ¬(x.id = e.id ∧ x.feed = e.feed) := by
        intro x hx hcon
        apply hguard
        rw [Bool.or_eq_true, Bool.or_eq_true]
        left
        left
        rw [List.any_eq_true]
        exact ⟨x, hx, decide_eq_true hcon⟩
      have hb : ∀ r ∈ s.sync_state, ¬(r.id = e.id ∧ r.feed = e.feed) := by
        intro r hr hcon
        apply hguard
        rw [Bool.or_eq_true, Bool.or_eq_true]
        left
        right
        rw [List.any_eq_true]
        exact ⟨r, hr, decide_eq_true hcon⟩
      refine ⟨?_, ?_, ?_⟩
      · intro e' he'
        rcases List.mem_cons.mp he' with rfl | he'
        · exact ⟨⟨e'.id, e'.feed, true, false⟩, List.mem_cons_self _ _,
            rfl, rfl, rfl⟩
        · obtain ⟨r, hr, h1, h2, h3⟩ := ih1 e' he'
          exact ⟨r, List.mem_cons_of_mem _ hr, h1, h2, h3⟩
      · apply List.pairwise_cons.mpr
        refine ⟨?_, ih2⟩
        intro r hr hcon
        rw [Prod.mk.injEq] at hcon
        exact hb r hr ⟨hcon.1.symm, hcon.2.symm⟩
      · apply List.pairwise_cons.mpr
        refine ⟨?_, ih3⟩
        intro x hx hcon
        rw [Prod.mk.injEq] at hcon
        exact ha x hx ⟨hcon.1.symm, hcon.2.symm⟩
  | updateEntry s i fd g hgkeys hre ih =>
    obtain ⟨ih1, ih2, ih3⟩ := ih
    unfold updateEntryOp
    refine ⟨?_, ?_, ?_⟩
    · intro e' he'
      obtain ⟨e₀, he₀, rfl⟩ := List.mem_map.mp he'
      obtain ⟨r, hr, h1, h2, h3⟩ := ih1 e₀ he₀
      have hekey : (if e₀.id = i ∧ e₀.feed = fd then g e₀ else e₀).id = e₀.id ∧
          (if e₀.id = i ∧ e₀.feed = fd then g e₀ else e₀).feed = e₀.feed := by
        split
        · exact ⟨(hgkeys e₀).1, (hgkeys e₀).2⟩
        · exact ⟨rfl, rfl⟩
      have hrkey : (if r.id = i ∧ r.feed = fd then { r with to_update := true }
            else r).id = r.id ∧
          (if r.id = i ∧ r.feed = fd then { r with to_update := true }
            else r).feed = r.feed ∧
          (if r.id = i ∧ r.feed = fd then { r with to_update := true }
            else r).to_delete = r.to_delete := by
        split
        · exact ⟨rfl, rfl, rfl⟩
        · exact ⟨rfl, rfl, rfl⟩
      exact ⟨_, List.mem_map_of_mem _ hr,
        by rw [hrkey.1, hekey.1]; exact h1,
        by rw [hrkey.2.1, hekey.2]; exact h2,
        by rw [hrkey.2.2]; exact h3⟩
    · exact pairwise_key_map (fun r : SyncStateRecord => (r.id, r.feed)) _
        (fun r => by split <;> rfl) ih2
    · exact pairwise_key_map (fun x : EntryRecord => (x.id, x.feed)) _
        (fun x => by
          split
          · rw [Prod.mk.injEq]
            exact ⟨(hgkeys x).1, (hgkeys x).2⟩
          · rfl) ih3
  | deleteEntry s i fd hre ih =>
    obtain ⟨ih1, ih2, ih3⟩ := ih
    unfold deleteEntryOp
    refine ⟨?_, ?_, ?_⟩
    · intro e' he'
      obtain ⟨he'mem, hkeep⟩ := List.mem_filter.mp he'
      rw [Bool.not_eq_true', decide_eq_false_iff_not] at hkeep
      obtain ⟨r, hr, h1, h2, h3⟩ := ih1 e' he'mem
      have hcond : ¬(r.id = i ∧ r.feed = fd) := by
        intro hcon
        exact hkeep ⟨by rw [← h1]; exact hcon.1, by rw [← h2]; exact hcon.2⟩
      refine ⟨r, ?_, h1, h2, h3⟩
      have : (if r.id = i ∧ r.feed = fd then { r with to_delete := true }
          else r) = r := if_neg hcond
      rw [← this]
      exact List.mem_map_of_mem _ hr
    · exact pairwise_key_map (fun r : SyncStateRecord => (r.id, r.feed)) _
        (fun r => by split <;> rfl) ih2
    · exact List.Pairwise.sublist (List.filter_sublist _) ih3
  | updateFeed s url g hgurl hre ih =>
    obtain ⟨ih1, ih2, ih3⟩ := ih
    unfold updateFeedOp
    refine ⟨?_, ?_, ih3⟩
    · intro e' he'
      obtain ⟨r, hr, h1, h2, h3⟩ := ih1 e' he'
      have hrkey : (if r.feed = url then { r with to_update := true }
            else r).id = r.id ∧
          (if r.feed = url then { r with to_update := true }
            else r).feed = r.feed ∧
          (if r.feed = url then { r with to_update := true }
            else r).to_delete = r.to_delete := by
        split
        · exact ⟨rfl, rfl, rfl⟩
        · exact ⟨rfl, rfl, rfl⟩
      exact ⟨_, List.mem_map_of_mem _ hr,
        by rw [hrkey.1]; exact h1,
        by rw [hrkey.2.1]; exact h2,
        by rw [hrkey.2.2]; exact h3⟩
    · exact pairwise_key_map (fun r : SyncStateRecord => (r.id, r.feed)) _
        (fun r => by split <;> rfl) ih2
  | insertFeed s f hre ih =>
    unfold insertFeedOp
    split
    · exact ih
    · exact ih
  | deleteFeed s url hre ih =>
    obtain ⟨ih1, ih2, ih3⟩ := ih
    unfold deleteFeedOp
    refine ⟨?_, ?_, ?_⟩
    · intro e' he'
      obtain ⟨he'mem, hkeep⟩ := List.mem_filter.mp he'
      rw [Bool.not_eq_true', decide_eq_false_iff_not] at hkeep
      obtain ⟨r, hr, h1, h2, h3⟩ := ih1 e' he'mem
      have hcond : (s.entries.any fun x =>
          decide (x.feed = url ∧ x.id = r.id ∧ x.feed = r.feed)) = false := by
        rw [Bool.eq_false_iff]
        intro hcon
        obtain ⟨x, hx, hxp⟩ := List.any_eq_true.mp hcon
        rw [decide_eq_true_eq] at hxp
        have hxe : x = e' := pairwise_key_eq (fun y : EntryRecord => (y.id, y.feed))
          ih3 hx he'mem (by
            rw [Prod.mk.injEq]
            exact ⟨by rw [hxp.2.1, h1], by rw [hxp.2.2, h2]⟩)
        apply hkeep
        rw [← hxe]
        exact hxp.1
      refine ⟨r, ?_, h1, h2, h3⟩
      have : (if (s.entries.any fun x =>
          decide (x.feed = url ∧ x.id = r.id ∧ x.feed = r.feed)) = true
          then { r with to_delete := true } else r) = r := by
        rw [hcond]
        rfl
      rw [← this]
      exact List.mem_map_of_mem _ hr
    · exact pairwise_key_map (fun r : SyncStateRecord => (r.id, r.feed)) _
        (fun r => by split <;> rfl) ih2
    · exact List.Pairwise.sublist (List.filter_sublist _) ih3
  | runUpdate s chunk sh hre ih =>
    obtain ⟨ih1, ih2, ih3⟩ := ih
    rw [search_update_eq]
    refine ⟨?_, ?_, ih3⟩
    · intro e' he'
      obtain ⟨r, hr, h1, h2, h3⟩ := ih1 e' he'
      have hrX : r ∈ (deleteFromSyncStateSpec
          (deleteFromSearchSpec s)).sync_state :=
        sync_row_survives_deletes s ih2 r hr h3
      have hrkey : (if r.to_update = true then { r with to_update := false }
            else r).id = r.id ∧
          (if r.to_update = true then { r with to_update := false }
            else r).feed = r.feed ∧
          (if r.to_update = true then { r with to_update := false }
            else r).to_delete = r.to_delete := by
        split
        · exact ⟨rfl, rfl, rfl⟩
        · exact ⟨rfl, rfl, rfl⟩
      exact ⟨_, List.mem_map_of_mem _ hrX,
        by rw [hrkey.1]; exact h1,
        by rw [hrkey.2.1]; exact h2,
        by rw [hrkey.2.2]; exact h3⟩
    · apply pairwise_key_map (fun r : SyncStateRecord => (r.id, r.feed)) _
        (fun r => by split <;> rfl)
      exact List.Pairwise.sublist (List.filter_sublist _) ih2

/-- Within one reindex pass, a sync-state row's deletion happens only after
the matching index documents have been removed: rows gone after phase 2 have
no documents in the phase-1 output, for every chunk size. -/
theorem deletion_ordered (s : State) (chunk : Nat) (r : SyncStateRecord)
    (hr : r ∈ s.sync_state)
    (hgone : ∀ r' ∈ (delete_from_sync_state chunk
        (delete_from_search chunk s)).sync_state,
      ¬(r'.id = r.id ∧ r'.feed = r.feed)) :
    ∀ d ∈ (delete_from_search chunk s).entries_search,
      ¬(d.doc_id = r.id ∧ d.doc_feed = r.feed) := by
  rw [delete_from_search_eq] at hgone ⊢
  rw [delete_from_sync_state_eq] at hgone
  have hcont : ((toDeleteKeys s.sync_state).contains (r.id, r.feed)) = true := by
    cases hcb : ((toDeleteKeys s.sync_state).contains (r.id, r.feed)) with
    | true => rfl
    | false =>
      exfalso
      apply hgone r ?_ ⟨rfl, rfl⟩
      apply List.mem_filter.mpr
      refine ⟨hr, ?_⟩
      rw [show (deleteFromSearchSpec s).sync_state = s.sync_state from rfl, hcb]
      rfl
  obtain ⟨r₀, hr₀, hdel₀, hk₀⟩ := mem_toDeleteKeys.mp ((contains_iff _ _).mp hcont)
  rw [Prod.mk.injEq] at hk₀
  rintro d hd ⟨h1, h2⟩
  obtain ⟨-, hk⟩ := List.mem_filter.mp hd
  have hdirty : dirtyKey s.sync_state d.doc_id d.doc_feed = true :=
    dirtyKey_iff.mpr ⟨r₀, hr₀, by rw [hdel₀]; exact Bool.or_true _,
      by rw [hk₀.1, h1], by rw [hk₀.2, h2]⟩
  rw [hdirty] at hk
  simp at hk

/-- Claim C9: in every state reachable while search is enabled, every entry
of the primary store has a sync-state row (created with it by the insert
trigger, by the `enable()` backfill, or preserved by the other operations);
and within a reindex pass a sync-state row is deleted only after the
corresponding index documents have been removed — a row absent after the
tombstone-removal phase has no documents in the output of the
stale-document-removal phase that precedes it, for every chunk size. -/
theorem claim_C9 (s : State) (h : Reachable s) :
    (∀ e ∈ s.entries, ∃ r ∈ s.sync_state, r.id = e.id ∧ r.feed = e.feed) ∧
    (∀ (chunk : Nat) (r : SyncStateRecord), r ∈ s.sync_state →
      (∀ r' ∈ (delete_from_sync_state chunk
          (delete_from_search chunk s)).sync_state,
        ¬(r'.id = r.id ∧ r'.feed = r.feed)) →
      ∀ d ∈ (delete_from_search chunk s).entries_search,
        ¬(d.doc_id = r.id ∧ d.doc_feed = r.feed)) := by
  constructor
  · intro e he
    obtain ⟨r, hr, h1, h2, -⟩ := (reachable_syncInv s h).1 e he
    exact ⟨r, hr, h1, h2⟩
  · intro chunk r hr hgone
    exact deletion_ordered s chunk r hr hgone

/-- Witness for C9 at the concrete state obtained by enabling search over a
one-entry, one-feed store. -/
theorem claim_C9_witness :
    (∀ e ∈ (enableSchema ⟨[exEntry], [exFeed], [], [], false⟩).entries,
      ∃ r ∈ (enableSchema ⟨[exEntry], [exFeed], [], [], false⟩).sync_state,
        r.id = e.id ∧ r.feed = e.feed) ∧
    (∀ (chunk : Nat) (r : SyncStateRecord),
      r ∈ (enableSchema ⟨[exEntry], [exFeed], [], [], false⟩).sync_state →
      (∀ r' ∈ (delete_from_sync_state chunk (delete_from_search chunk
          (enableSchema ⟨[exEntry], [exFeed], [], [], false⟩))).sync_state,
        ¬(r'.id = r.id ∧ r'.feed = r.feed)) →
      ∀ d ∈ (delete_from_search chunk
          (enableSchema ⟨[exEntry], [exFeed], [], [], false⟩)).entries_search,
        ¬(d.doc_id = r.id ∧ d.doc_feed = r.feed)) :=
  claim_C9 (enableSchema ⟨[exEntry], [exFeed], [], [], false⟩)
    (Reachable.enable ⟨[exEntry], [exFeed], [], [], false⟩
      (by unfold WFBase; decide))
